import Mathlib

/-!
Verification of the clinical summary generator pipeline.
Tables are modelled as pandas-style dataframes: a column list plus rows of
keyed optional cells (a missing cell models NaN / NaT).  Integer ids and
dates are abstracted to `Int`; a date value models a pandas Timestamp,
ordered by its integer day number.  Fallible pandas operations (KeyError,
IndexError, int conversion, scalar comparison on mixed types) are modelled
in the `Except String` monad.
-/

namespace CSG

/-- Value models a scalar stored in a pandas cell: an integer, a piece of
text, or a datetime (abstracted to an integer day number). -/
inductive Value where
  | vInt : Int → Value
  | vStr : String → Value
  | vDate : Int → Value
deriving DecidableEq, Repr

/-- Cell models one dataframe cell; `none` is NaN / NaT / None. -/
abbrev Cell := Option Value

/-- Row models one dataframe row as an association list keyed by column name. -/
abbrev Row := List (String × Cell)

/-- Table models a dataframe: its column schema and its ordered rows. -/
structure Table where
  cols : List String
  rows : List Row
deriving DecidableEq, Repr

/-- rowGet models `row.get(col)` / `row[col]` on a pandas row: the cell when
the key is present, `none` otherwise. -/
def rowGet (r : Row) (c : String) : Cell :=
  match r.find? (fun p => p.1 == c) with
  | some p => p.2
  | none => none

/-- valueRank orders the constructors so that cross-kind comparisons are total. -/
def valueRank : Value → Nat
  | .vInt _ => 0
  | .vStr _ => 1
  | .vDate _ => 2

/-- valueLe is a total order on cell scalars; on two dates it is exactly the
Timestamp order used by `sort_values` and `>` in the source. -/
def valueLe (a b : Value) : Bool :=
  match a, b with
  | .vInt x, .vInt y => decide (x ≤ y)
  | .vStr x, .vStr y => decide (x ≤ y)
  | .vDate x, .vDate y => decide (x ≤ y)
  | a, b => decide (valueRank a < valueRank b)

/-- valueLt is the strict part of `valueLe`; it models `dt > best_date`. -/
def valueLt (a b : Value) : Bool :=
  valueLe a b && !(valueLe b a)

/-- cellLe compares optional cells, placing missing values first. -/
def cellLe (a b : Cell) : Bool :=
  match a, b with
  | none, _ => true
  | some _, none => false
  | some x, some y => valueLe x y

/-- leRowBy compares two rows by the cell stored under one date column,
as `sort_values(date_col)` does. -/
def leRowBy (dcol : String) (a b : Row) : Bool :=
  cellLe (rowGet a dcol) (rowGet b dcol)

/-- insertLe inserts an element into a list sorted by a boolean relation,
before the first element it is `le`-below; this is the stable insertion step. -/
def insertLe (le : α → α → Bool) (a : α) : List α → List α
  | [] => [a]
  | b :: bs => if le a b then a :: b :: bs else b :: insertLe le a bs

/-- sortAsc is a stable ascending insertion sort, modelling the argsort that
pandas `sort_values` performs before the descending reversal. -/
def sortAsc (le : α → α → Bool) : List α → List α
  | [] => []
  | a :: as => insertLe le a (sortAsc le as)

/-- lastMaxR returns the last element of the list attaining the maximum
under `le`, which is what `.iloc[0]` of a descending pandas sort yields. -/
def lastMaxR (le : α → α → Bool) : List α → Option α
  | [] => none
  | a :: l =>
    match lastMaxR le l with
    | none => some a
    | some b => some (if le a b then b else a)

/-- firstMaxR returns the first element of the list attaining the maximum
under `le`; it formalises the row the specification text designates. -/
def firstMaxR (le : α → α → Bool) : List α → Option α
  | [] => none
  | a :: l =>
    match firstMaxR le l with
    | none => some a
    | some b => some (if le a b && !(le b a) then b else a)

/-- Tables models the `Dict[str, DataFrame]` passed through the pipeline,
in insertion order. -/
abbrev Tables := List (String × Table)

/-- lookupTable models `tables.get(name)`. -/
def lookupTable (ts : Tables) (n : String) : Option Table :=
  (ts.find? (fun p => p.1 == n)).map (fun p => p.2)

/-- filterByPatient models `_filter_by_patient`: the table unchanged when
empty, schema-preserving empty when the key column is absent, otherwise the
rows whose patient id cell equals the requested id. -/
def filterByPatient (t : Table) (pid : Int) : Table :=
  if t.rows.isEmpty then t
  else if "patient_id" ∈ t.cols then
    ⟨t.cols, t.rows.filter (fun r => rowGet r "patient_id" == some (.vInt pid))⟩
  else ⟨t.cols, []⟩

/-- cellEqInt models the elementwise pandas comparison `df[col] == v` where
`v` is an optional integer; a missing cell or a `None` comparand never matches. -/
def cellEqInt (c : Cell) (v : Option Int) : Bool :=
  match v with
  | some k => c == some (.vInt k)
  | none => false

/-- filter_by_episode models `_filter_by_episode` (the episode argument is
optional because `get_episode_bundle` may receive `None`). -/
def filter_by_episode (t : Table) (e : Option Int) : Table :=
  if t.rows.isEmpty then t
  else if "episode_id" ∈ t.cols then
    ⟨t.cols, t.rows.filter (fun r => cellEqInt (rowGet r "episode_id") e)⟩
  else ⟨t.cols, []⟩

/-- DATE_PRIORITY is the fixed ordered list of (table, date column) pairs. -/
def DATE_PRIORITY : List (String × String) :=
  [("vitals", "visit_date"), ("notes", "note_date"),
   ("wounds", "visit_date"), ("oasis", "assessment_date")]

/-- toIntE models Python `int(v)` on a non-null cell scalar; only an integer
scalar converts, anything else raises. -/
def toIntE : Value → Except String Int
  | .vInt n => .ok n
  | _ => .error "int conversion failed"

/-- setInsert models adding one element to a Python set held as a list. -/
def setInsert (s : List Int) (k : Int) : List Int :=
  if k ∈ s then s else k :: s

/-- mapIntE models the comprehension `[int(v) for v in vals]`. -/
def mapIntE : List Value → Except String (List Int)
  | [] => .ok []
  | v :: vs =>
    match toIntE v with
    | .error e => .error e
    | .ok k =>
      match mapIntE vs with
      | .error e => .error e
      | .ok ks => .ok (k :: ks)

/-- episodeIdsOfTable models one iteration of the loop in
`get_patient_episodes`: the integer episode ids of the non-null episode
cells of the patient rows, when both key columns are in the schema. -/
def episodeIdsOfTable (t : Table) (pid : Int) : Except String (List Int) :=
  if t.rows.isEmpty then .ok []
  else if "patient_id" ∉ t.cols then .ok []
  else if "episode_id" ∈ t.cols then
    mapIntE ((t.rows.filter (fun r => rowGet r "patient_id" == some (.vInt pid))).filterMap
      (fun r => rowGet r "episode_id"))
  else .ok []

/-- episodesFold accumulates the episode id set over the table dictionary. -/
def episodesFold (pid : Int) (s : List Int) : Tables → Except String (List Int)
  | [] => .ok s
  | nt :: rest =>
    match episodeIdsOfTable nt.2 pid with
    | .error e => .error e
    | .ok ks => episodesFold pid (ks.foldl setInsert s) rest

/-- get_patient_episodes models the source function of the same name:
`sorted(list(set))` of all episode ids of the patient across tables. -/
def get_patient_episodes (ts : Tables) (pid : Int) : Except String (List Int) :=
  match episodesFold pid [] ts with
  | .error e => .error e
  | .ok s => .ok (sortAsc (fun a b => decide (a ≤ b)) s)

/-- sortDescRows models `sort_values(dcol, ascending=False)`: pandas argsorts
the non-null keys stably, reverses, and appends the null-keyed rows last. -/
def sortDescRows (dcol : String) (rows : List Row) : List Row :=
  let p := rows.partition (fun r => (rowGet r dcol).isSome)
  (sortAsc (leRowBy dcol) p.1).reverse ++ p.2

/-- scanStep models one iteration of the DATE_PRIORITY loop in
`get_latest_episode_id`, updating the running (episode, date) best. -/
def scanStep (ts : Tables) (pid : Int) (best : Option (Int × Value))
    (nc : String × String) : Except String (Option (Int × Value)) :=
  match lookupTable ts nc.1 with
  | none => .ok best
  | some df =>
    if df.rows.isEmpty then .ok best
    else if nc.2 ∉ df.cols then .ok best
    else
      let pdf := filterByPatient df pid
      if pdf.rows.isEmpty then .ok best
      else if "episode_id" ∉ pdf.cols then .ok best
      else
        let dropped := pdf.rows.filter
          (fun r => (rowGet r nc.2).isSome && (rowGet r "episode_id").isSome)
        if dropped.isEmpty then .ok best
        else
          match (sortDescRows nc.2 dropped).head? with
          | none => .error "IndexError"
          | some latestRow =>
            match rowGet latestRow "episode_id" with
            | none => .error "int conversion failed"
            | some epv =>
              match toIntE epv with
              | .error e => .error e
              | .ok ep =>
                match rowGet latestRow nc.2 with
                | none => .error "TypeError"
                | some dt =>
                  .ok (match best with
                       | none => some (ep, dt)
                       | some (be, bd) =>
                         if valueLt bd dt then some (ep, dt) else some (be, bd))

/-- scanFold runs `scanStep` over a priority list, modelling the for loop. -/
def scanFold (ts : Tables) (pid : Int) (best : Option (Int × Value)) :
    List (String × String) → Except String (Option (Int × Value))
  | [] => .ok best
  | nc :: rest =>
    match scanStep ts pid best nc with
    | .error e => .error e
    | .ok b => scanFold ts pid b rest

/-- maxInt models Python `max` on a nonempty list of ints. -/
def maxInt (h : Int) (t : List Int) : Int := t.foldl max h

/-- get_latest_episode_id models the source function of the same name. -/
def get_latest_episode_id (ts : Tables) (pid : Int) : Except String (Option Int) :=
  match get_patient_episodes ts pid with
  | .error e => .error e
  | .ok eps =>
    if eps.isEmpty then .ok none
    else
      match scanFold ts pid none DATE_PRIORITY with
      | .error e => .error e
      | .ok none =>
        match eps with
        | [] => .error "max of empty sequence"
        | h :: t => .ok (some (maxInt h t))
      | .ok (some (be, _)) => .ok (some be)

/-- patient_exists models the source function: true when some table has a
patient id column with a matching row. -/
def patient_exists (ts : Tables) (pid : Int) : Bool :=
  ts.any (fun nt =>
    !nt.2.rows.isEmpty && "patient_id" ∈ nt.2.cols &&
      nt.2.rows.any (fun r => rowGet r "patient_id" == some (.vInt pid)))

/-- isWS recognises the whitespace stripped by Python `str.strip`. -/
def isWS (c : Char) : Bool :=
  c == ' ' || c == '\n' || c == '\t' || c == '\r'

/-- rstripL removes trailing whitespace from a character list. -/
def rstripL : List Char → List Char
  | [] => []
  | c :: cs =>
    let t := rstripL cs
    if t.isEmpty && isWS c then [] else c :: t

/-- pyStrip models Python `str.strip()`. -/
def pyStrip (s : String) : String :=
  ⟨rstripL (s.data.dropWhile isWS)⟩

/-- natDigits renders a natural number in decimal as a character list. -/
def natDigits (n : Nat) : List Char :=
  if h : n < 10 then [Char.ofNat (48 + n)]
  else natDigits (n / 10) ++ [Char.ofNat (48 + n % 10)]
decreasing_by exact Nat.div_lt_self (by omega) (by omega)

/-- intRender renders an integer in decimal. -/
def intRender (k : Int) : String :=
  (if k < 0 then "-" else "") ++ ⟨natDigits k.natAbs⟩

/-- showValue models Python `str(x)` on a cell scalar; a datetime is
abstracted to the decimal rendering of its day number. -/
def showValue : Value → String
  | .vInt n => intRender n
  | .vStr s => s
  | .vDate d => intRender d

/-- safeStr models `_safe_str`: empty on a missing value, otherwise the
stripped string rendering. -/
def safeStr : Cell → String
  | none => ""
  | some v => pyStrip (showValue v)

/-- dedupF models the seen-set loop that keeps the first occurrence of each
element while preserving order. -/
def dedupF [DecidableEq α] : List α → List α → List α
  | _, [] => []
  | seen, x :: xs =>
    if x ∈ seen then dedupF seen xs else x :: dedupF (x :: seen) xs

/-- diagRowString models one iteration of the `summarize_diagnoses` loop:
the emitted string, or nothing when both description and code are blank. -/
def diagRowString (hasDesc hasCode : Bool) (r : Row) : Option String :=
  let desc := if hasDesc then safeStr (rowGet r "diagnosis_description") else ""
  let code := if hasCode then safeStr (rowGet r "diagnosis_code") else ""
  if code ≠ "" ∧ desc ≠ "" then some (desc ++ " (" ++ code ++ ")")
  else if desc ≠ "" then some desc
  else if code ≠ "" then some code
  else none

/-- diagStrings is the `results` list of `summarize_diagnoses` before
deduplication. -/
def diagStrings (t : Table) : List String :=
  t.rows.filterMap
    (diagRowString (t.cols.contains "diagnosis_description")
      (t.cols.contains "diagnosis_code"))

/-- summarize_diagnoses models the source function of the same name. -/
def summarize_diagnoses (t : Table) : List String :=
  if t.rows.isEmpty then [] else dedupF [] (diagStrings t)

/-- Med models the medication record emitted by `summarize_medications`. -/
structure Med where
  name : String
  frequency : String
  classification : String
  reason : String
deriving DecidableEq, Repr

/-- medOfRow models the record built from one medications row. -/
def medOfRow (r : Row) : Med :=
  ⟨safeStr (rowGet r "medication_name"), safeStr (rowGet r "frequency"),
   safeStr (rowGet r "classification"), safeStr (rowGet r "reason")⟩

/-- medsDedup models the seen-set loop of `summarize_medications`: a record
is kept when its full tuple is new and its name is nonempty. -/
def medsDedup : List Med → List Med → List Med
  | _, [] => []
  | seen, m :: ms =>
    if m ∉ seen ∧ m.name ≠ "" then m :: medsDedup (m :: seen) ms
    else medsDedup seen ms

/-- summarize_medications models the source function of the same name. -/
def summarize_medications (t : Table) : List Med :=
  if t.rows.isEmpty then [] else medsDedup [] (t.rows.map medOfRow)

/-- dropnaE models `df.dropna(subset=cs)`: KeyError when a subset column is
not in the schema, otherwise the rows with all subset cells present. -/
def dropnaE (t : Table) (cs : List String) : Except String (List Row) :=
  if cs.all (fun c => t.cols.contains c) then
    .ok (t.rows.filter (fun r => cs.all (fun c => (rowGet r c).isSome)))
  else .error "KeyError"

/-- mapExcept maps a fallible function over a list, stopping at the first
raised error, as a Python loop does. -/
def mapExcept (f : α → Except String β) : List α → Except String (List β)
  | [] => .ok []
  | a :: as =>
    match f a with
    | .error e => .error e
    | .ok b =>
      match mapExcept f as with
      | .error e => .error e
      | .ok bs => .ok (b :: bs)

/-- groupByCol models `df.groupby(c)`: rows with a missing key are dropped,
keys are emitted in sorted order, each with its rows in stored order. -/
def groupByCol (rows : List Row) (c : String) : List (Value × List Row) :=
  let keys := sortAsc valueLe (dedupF [] (rows.filterMap (fun r => rowGet r c)))
  keys.map (fun k => (k, rows.filter (fun r => rowGet r c == some k)))

/-- valueLtE models the Python comparison `a < b` on two cell scalars, which
raises on mixed kinds. -/
def valueLtE (a b : Value) : Except String Bool :=
  match a, b with
  | .vInt x, .vInt y => .ok (decide (x < y))
  | .vStr x, .vStr y => .ok (decide (x < y))
  | .vDate x, .vDate y => .ok (decide (x < y))
  | _, _ => .error "TypeError"

/-- cellFloatE models `None if pd.isna(x) else float(x)`; only an integer
scalar converts (`vStr` models text that `float` rejects). -/
def cellFloatE : Cell → Except String (Option Int)
  | none => .ok none
  | some (.vInt n) => .ok (some n)
  | some _ => .error "float conversion failed"

/-- VitalEntry models one `latest_vitals` record. -/
structure VitalEntry where
  reading : Option Int
  min : Option Int
  max : Option Int
  date : Cell
deriving DecidableEq, Repr

/-- VitalsSummary models the dictionary returned by `summarize_vitals`. -/
structure VitalsSummary where
  latest_date : Cell
  latest_vitals : List (Value × VitalEntry)
  abnormal : List String
deriving DecidableEq, Repr

/-- vitalsGroup models the per-`vital_type` body of `summarize_vitals`:
pick the most recent row of the group, convert its numeric cells, and
compute the abnormality flags. -/
def vitalsGroup (g : Value × List Row) : Except String ((Value × VitalEntry) × List String) :=
  match (sortDescRows "visit_date" g.2).head? with
  | none => .error "IndexError"
  | some r =>
    let reading := rowGet r "reading"
    let minv := rowGet r "min_value"
    let maxv := rowGet r "max_value"
    match cellFloatE reading with
    | .error e => .error e
    | .ok readingF =>
      match cellFloatE minv with
      | .error e => .error e
      | .ok minF =>
        match cellFloatE maxv with
        | .error e => .error e
        | .ok maxF =>
          let entry : VitalEntry := ⟨readingF, minF, maxF, rowGet r "visit_date"⟩
          match reading with
          | none => .ok ((g.1, entry), [])
          | some rv =>
            let below : Except String (List String) :=
              match minv with
              | none => .ok []
              | some mv =>
                match valueLtE rv mv with
                | .error e => .error e
                | .ok b =>
                  .ok (if b then
                    [showValue g.1 ++ ": " ++ showValue rv ++ " (below min " ++
                      showValue mv ++ ")"] else [])
            match below with
            | .error e => .error e
            | .ok bs =>
              match maxv with
              | none => .ok ((g.1, entry), bs)
              | some mv =>
                match valueLtE mv rv with
                | .error e => .error e
                | .ok b =>
                  .ok ((g.1, entry),
                    bs ++ (if b then
                      [showValue g.1 ++ ": " ++ showValue rv ++ " (above max " ++
                        showValue mv ++ ")"] else []))

/-- summarize_vitals models the source function of the same name; the empty
summary is returned only for an empty table, and a non-empty table whose
dated rows all vanish under `dropna` reaches `iloc[0]` on an empty frame. -/
def summarize_vitals (t : Table) : Except String VitalsSummary :=
  if t.rows.isEmpty then .ok ⟨none, [], []⟩
  else
    match dropnaE t ["visit_date"] with
    | .error e => .error e
    | .ok kept =>
      let sorted := sortDescRows "visit_date" kept
      match sorted.head? with
      | none => .error "IndexError"
      | some r0 =>
        let latestDate := rowGet r0 "visit_date"
        if !t.cols.contains "vital_type" then .error "KeyError"
        else
          match mapExcept vitalsGroup (groupByCol sorted "vital_type") with
          | .error e => .error e
          | .ok entries =>
            .ok ⟨latestDate, entries.map (fun p => p.1),
              (entries.map (fun p => p.2)).flatten⟩

/-- top_n_recent models `_top_n_recent`: empty when the table is empty or
the date column is absent, otherwise the first n rows of the descending
sort of the dated rows. -/
def top_n_recent (t : Table) (dcol : String) (n : Nat) : List Row :=
  if t.rows.isEmpty || !t.cols.contains dcol then []
  else (sortDescRows dcol (t.rows.filter (fun r => (rowGet r dcol).isSome))).take n

/-- strTake models the Python slice `s[:n]` by characters. -/
def strTake (s : String) (n : Nat) : String :=
  ⟨s.data.take n⟩

/-- NoteItem models one entry of `note_highlights`. -/
structure NoteItem where
  date : Cell
  type : String
  snippet : String
deriving DecidableEq, Repr

/-- noteOfRow models one iteration of the `summarize_notes` loop, with the
`text[:300]` truncation and conditional ellipsis marker. -/
def noteOfRow (r : Row) : NoteItem :=
  let text := safeStr (rowGet r "note_text")
  ⟨rowGet r "note_date", safeStr (rowGet r "note_type"),
   strTake text 300 ++ (if text.length > 300 then "..." else "")⟩

/-- summarize_notes models the source function of the same name. -/
def summarize_notes (t : Table) (n : Nat) : List NoteItem :=
  if t.rows.isEmpty then [] else (top_n_recent t "note_date" n).map noteOfRow

/-- WoundItem models one entry of `wounds_summary`. -/
structure WoundItem where
  location : String
  description : String
  onset_date : Cell
  visit_date : Cell
deriving DecidableEq, Repr

/-- summarize_wounds models the source function of the same name. -/
def summarize_wounds (t : Table) : List WoundItem :=
  if t.rows.isEmpty then []
  else
    let rows :=
      if t.cols.contains "visit_date" then sortDescRows "visit_date" t.rows
      else t.rows
    rows.map (fun r =>
      ⟨safeStr (rowGet r "location"), safeStr (rowGet r "description"),
       rowGet r "onset_date", rowGet r "visit_date"⟩)

/-- OasisSummary models the dictionary returned by `summarize_oasis`; a
`none` assessment type is the `None` of the empty default. -/
structure OasisSummary where
  latest_date : Cell
  assessment_type : Option String
  adl : List (String × String)
deriving DecidableEq, Repr

/-- summarize_oasis models the source function of the same name; as with
vitals, a non-empty table whose assessment dates are all missing reaches
`iloc[0]` on an empty frame. -/
def summarize_oasis (t : Table) : Except String OasisSummary :=
  if t.rows.isEmpty then .ok ⟨none, none, []⟩
  else
    match dropnaE t ["assessment_date"] with
    | .error e => .error e
    | .ok kept =>
      match (sortDescRows "assessment_date" kept).head? with
      | none => .error "IndexError"
      | some latest =>
        .ok ⟨rowGet latest "assessment_date",
          some (safeStr (rowGet latest "assessment_type")),
          ((["grooming", "bathing", "toilet_transfer", "transfer", "ambulation"].filter
            (fun f => t.cols.contains f)).map
              (fun f => (f, safeStr (rowGet latest f))))⟩

/-- SummaryInputs models the dictionary built by `prepare_summary_inputs`. -/
structure SummaryInputs where
  patient_id : Int
  episode_id : Option Int
  diagnoses_summary : List String
  medications_summary : List Med
  vitals_summary : VitalsSummary
  note_highlights : List NoteItem
  wounds_summary : List WoundItem
  oasis_summary : OasisSummary
deriving DecidableEq, Repr

/-- prepare_summary_inputs models the source function: each summarizer is
applied to its table from the bundle, an absent table giving the empty
default; only the vitals and oasis summarizers can raise. -/
def prepare_summary_inputs (b : Tables) (pid : Int) (eid : Option Int) :
    Except String SummaryInputs :=
  match ((match lookupTable b "vitals" with
          | none => .ok ⟨none, [], []⟩
          | some t => summarize_vitals t) : Except String VitalsSummary) with
  | .error e => .error e
  | .ok vs =>
    match ((match lookupTable b "oasis" with
            | none => .ok ⟨none, none, []⟩
            | some t => summarize_oasis t) : Except String OasisSummary) with
    | .error e => .error e
    | .ok os =>
      .ok ⟨pid, eid,
        (match lookupTable b "diagnoses" with
         | none => [] | some t => summarize_diagnoses t),
        (match lookupTable b "medications" with
         | none => [] | some t => summarize_medications t),
        vs,
        (match lookupTable b "notes" with
         | none => [] | some t => summarize_notes t 3),
        (match lookupTable b "wounds" with
         | none => [] | some t => summarize_wounds t),
        os⟩

/-- PatientBundle models the dataclass of `patient_service`. -/
structure PatientBundle where
  patient_id : Int
  episode_ids : List Int
  latest_episode_id : Option Int
  data : Tables

/-- get_patient_bundle models the source function of the same name. -/
def get_patient_bundle (ts : Tables) (pid : Int) : Except String PatientBundle :=
  match get_patient_episodes ts pid with
  | .error e => .error e
  | .ok eps =>
    match get_latest_episode_id ts pid with
    | .error e => .error e
    | .ok latest =>
      .ok ⟨pid, eps, latest, ts.map (fun nt => (nt.1, filterByPatient nt.2 pid))⟩

/-- get_episode_bundle models the source function: each patient-filtered
table is episode-filtered when non-empty and carrying an episode id column,
and passes through unchanged otherwise. -/
def get_episode_bundle (ts : Tables) (pid : Int) (eid : Option Int) :
    Except String Tables :=
  match get_patient_bundle ts pid with
  | .error e => .error e
  | .ok b =>
    .ok (b.data.map (fun nt =>
      (nt.1,
        if nt.2.rows.isEmpty then nt.2
        else if nt.2.cols.contains "episode_id" then filter_by_episode nt.2 eid
        else nt.2)))

/-- joinLines models `"\n".join(...)`. -/
def joinLines : List String → String
  | [] => ""
  | [s] => s
  | s :: rest => s ++ "\n" ++ joinLines rest

/-- showOptInt models the Python string interpolation of an optional
integer, where `None` prints as the word None. -/
def showOptInt : Option Int → String
  | none => "None"
  | some k => intRender k

/-- pyOr models the Python expression `x or alt` on an optional string:
both `None` and the empty string fall back to the alternative. -/
def pyOr (o : Option String) (alt : String) : String :=
  match o with
  | none => alt
  | some s => if s == "" then alt else s

/-- fmtDateT models `_fmt_date` of `summary_generator`: the missing-date
marker is the literal Not documented, a datetime renders as its day number
in decimal, and text falls back to its own string rendering. -/
def fmtDateT : Cell → String
  | none => "Not documented"
  | some (.vDate d) => intRender d
  | some (.vInt n) => intRender n
  | some (.vStr s) => s

/-- fmtDateP models `_fmt_date` of `prompt_builder`, whose missing-date
marker is the literal N/A. -/
def fmtDateP : Cell → String
  | none => "N/A"
  | some (.vDate d) => intRender d
  | some (.vInt n) => intRender n
  | some (.vStr s) => s

/-- build_prompt models the source function: the citation-annotated
evidence text handed to the generation service. -/
def build_prompt (si : SummaryInputs) : String :=
  let dx := si.diagnoses_summary
  let dx_text :=
    if dx.isEmpty then "- Not documented [Source: diagnoses.csv]"
    else joinLines (dx.map (fun d => "- " ++ d ++ " [Source: diagnoses.csv]"))
  let meds := si.medications_summary
  let meds_text :=
    if meds.isEmpty then "- Not documented [Source: medications.csv]"
    else joinLines (meds.map (fun m =>
      "- " ++ m.name ++ " | " ++ m.frequency ++ " | " ++ m.classification ++
      " | Reason: " ++ m.reason ++ " [Source: medications.csv]"))
  let vitals := si.vitals_summary
  let latest_date := fmtDateP vitals.latest_date
  let vitals_text :=
    if vitals.latest_vitals.isEmpty then "- Not documented [Source: vitals.csv]"
    else joinLines (vitals.latest_vitals.map (fun p =>
      let v_date := fmtDateP p.2.date
      "- " ++ showValue p.1 ++ ": " ++ showOptInt p.2.reading ++ " (date: " ++
      v_date ++ ") [Source: vitals.csv | visit_date=" ++ v_date ++ "]"))
  let abnormal_text :=
    if vitals.abnormal.isEmpty then "- None flagged [Source: vitals.csv]"
    else joinLines (vitals.abnormal.map (fun a =>
      "- " ++ a ++ " [Source: vitals.csv]"))
  let notes := si.note_highlights
  let notes_text :=
    if notes.isEmpty then "- Not documented [Source: notes.csv]"
    else joinLines (notes.map (fun n =>
      "- [" ++ fmtDateP n.date ++ "] " ++ n.type ++ ": " ++ n.snippet ++
      " [Source: notes.csv | note_date=" ++ fmtDateP n.date ++ "]"))
  let wounds := si.wounds_summary
  let wounds_text :=
    if wounds.isEmpty then "- No wounds documented [Source: wounds.csv]"
    else joinLines (wounds.map (fun w =>
      "- " ++ w.description ++ " | Location: " ++ w.location ++ " | Onset: " ++
      fmtDateP w.onset_date ++ " | Visit: " ++ fmtDateP w.visit_date ++
      " [Source: wounds.csv | visit_date=" ++ fmtDateP w.visit_date ++ "]"))
  let oasis := si.oasis_summary
  let oasis_date := fmtDateP oasis.latest_date
  let oasis_type := pyOr oasis.assessment_type "N/A"
  let adl := oasis.adl
  let adl_text :=
    if adl.isEmpty then
      "- Not documented [Source: oasis.csv | assessment_date=" ++ oasis_date ++ "]"
    else joinLines (adl.map (fun kv =>
      "- " ++ kv.1 ++ ": " ++ kv.2 ++ " [Source: oasis.csv | assessment_date=" ++
      oasis_date ++ "]"))
  pyStrip (joinLines
    ["",
     "You are a home health clinician. Your task is to generate an evidence-based clinical summary from the provided EHR data.",
     "",
     "IMPORTANT RULES:",
     "- Use ONLY the data provided below. Do NOT invent anything.",
     "- Every claim MUST include a citation bracket in this format:",
     "  [Source: <file>.csv | <key>=<value>]",
     "  Examples:",
     "  - Blood pressure elevated (145/88 on 2023-10-01) [Source: vitals.csv | visit_date=2023-10-01]",
     "  - OASIS shows chairfast status [Source: oasis.csv | assessment_date=2025-12-03]",
     "  - Pressure ulcer stage III [Source: wounds.csv | visit_date=2026-01-08]",
     "- If something is missing, say \"Not documented\" AND still include the relevant source file citation.",
     "- If you describe a trend, reference the involved dates.",
     "",
     "Patient ID: " ++ intRender si.patient_id,
     "Episode ID: " ++ showOptInt si.episode_id,
     "",
     "========================",
     "PATIENT EHR DATA",
     "========================",
     "",
     "1) Diagnoses:",
     dx_text,
     "",
     "2) Medications:",
     meds_text,
     "",
     "3) Vitals (latest vitals date overall: " ++ latest_date ++ "):",
     vitals_text,
     "",
     "Abnormal vitals:",
     abnormal_text,
     "",
     "4) Wounds:",
     wounds_text,
     "",
     "5) Functional Status (OASIS):",
     "Assessment Date: " ++ oasis_date ++ " [Source: oasis.csv | assessment_date=" ++ oasis_date ++ "]",
     "Assessment Type: " ++ oasis_type ++ " [Source: oasis.csv | assessment_date=" ++ oasis_date ++ "]",
     "ADL / Mobility:",
     adl_text,
     "",
     "6) Recent Notes:",
     notes_text,
     "",
     "========================",
     "OUTPUT FORMAT",
     "========================",
     "Use the headings EXACTLY as written below, and include citations in every bullet/sentence:",
     "",
     "1. Patient Overview",
     "2. Primary Diagnoses",
     "3. Recent Vital Signs & Trends",
     "4. Active Wounds & Wound Care Status",
     "5. Current Medications / Adherence Notes",
     "6. Functional Status (OASIS)",
     "7. Recent Clinician Notes (key events)",
     "8. Risks / Red Flags",
     "9. Recommended Care Focus (next 7 days)",
     "",
     "Keep it concise, clinically meaningful, and verifiable.",
     "",
     "Rules:",
     "- Do not hallucinate.",
     "- If data is missing, say \"Not documented\".",
     "- Be concise but clinically meaningful.",
     "- Highlight wound care, BP/oxygen abnormalities if present, immobility risks, infection risk, and dependence in ADLs.",
     ""])

/-- template_generate models `_template_generate`: the deterministic
fallback rendering of the structured summary, without citation tags. -/
def template_generate (si : SummaryInputs) : String :=
  let dx := si.diagnoses_summary
  let dx_text :=
    if dx.isEmpty then "Not documented"
    else joinLines (dx.map (fun d => "- " ++ d))
  let meds := si.medications_summary
  let meds_text :=
    if meds.isEmpty then "Not documented"
    else joinLines (meds.map (fun m =>
      "- " ++ m.name ++ " (" ++ m.frequency ++ ") — Reason: " ++ m.reason))
  let vitals := si.vitals_summary
  let latest_date := fmtDateT vitals.latest_date
  let vitals_text :=
    if vitals.latest_vitals.isEmpty then "Not documented"
    else joinLines (vitals.latest_vitals.map (fun p =>
      "- " ++ showValue p.1 ++ ": " ++ showOptInt p.2.reading))
  let abnormal_text :=
    if vitals.abnormal.isEmpty then "None flagged"
    else joinLines (vitals.abnormal.map (fun x => "- " ++ x))
  let wounds := si.wounds_summary
  let wound_text :=
    if wounds.isEmpty then "Not documented"
    else joinLines (wounds.map (fun w =>
      "- " ++ w.description ++ " | " ++ w.location ++ " | onset " ++
      fmtDateT w.onset_date ++ " | last " ++ fmtDateT w.visit_date))
  let oasis := si.oasis_summary
  let oasis_date := fmtDateT oasis.latest_date
  let oasis_type := pyOr oasis.assessment_type "Not documented"
  let adl := oasis.adl
  let adl_text :=
    if adl.isEmpty then "Not documented"
    else joinLines (adl.map (fun kv => "- " ++ kv.1 ++ ": " ++ kv.2))
  let notes := si.note_highlights
  let notes_text :=
    if notes.isEmpty then "Not documented"
    else joinLines (notes.map (fun n =>
      "- [" ++ fmtDateT n.date ++ "] " ++ n.type ++ ": " ++ n.snippet))
  pyStrip (joinLines
    ["",
     "1. Patient Overview",
     "Patient ID: " ++ intRender si.patient_id,
     "Episode ID: " ++ showOptInt si.episode_id,
     "",
     "2. Active Diagnoses",
     dx_text,
     "",
     "3. Current Medications",
     meds_text,
     "",
     "4. Recent Vitals",
     "Latest date: " ++ latest_date,
     vitals_text,
     "",
     "Abnormal:",
     abnormal_text,
     "",
     "5. Wound Summary",
     wound_text,
     "",
     "6. Functional / ADL Status (OASIS)",
     "Assessment date: " ++ oasis_date,
     "Assessment type: " ++ oasis_type,
     adl_text,
     "",
     "7. Recent Notes",
     notes_text,
     ""])

/-- Debug models the debug metadata dictionary returned by
`generate_summary`; each constructor is one of its four shapes. -/
inductive Debug where
  | notFound (patient_id : Int)
  | success (patient_id : Int) (episode_id : Option Int) (use_llm : Bool) (model : String)
  | fallback (patient_id : Int) (episode_id : Option Int) (use_llm : Bool) (model : String)
      (error : String) (prompt_preview : String)
  | skipped (patient_id : Int) (episode_id : Option Int) (use_llm : Bool) (model : String)
deriving DecidableEq, Repr

/-- llmStatus reads the `llm_status` key of the debug dictionary. -/
def Debug.llmStatus : Debug → Option String
  | .notFound _ => none
  | .success _ _ _ _ => some "success"
  | .fallback _ _ _ _ _ _ => some "failed_fallback_used"
  | .skipped _ _ _ _ => some "skipped"

/-- found reads the `found` key of the debug dictionary; it is False only
in the not-found shape and True otherwise. -/
def Debug.found : Debug → Bool
  | .notFound _ => false
  | _ => true

/-- generate_summary models the source function.  The generation service is
a parameter taking the prompt and model name; the third result component
counts its invocations. -/
def generate_summary (ts : Tables) (pid : Int) (use_llm : Bool) (model : String)
    (llm : String → String → Except String String) :
    Except String (String × Debug × Nat) :=
  if !patient_exists ts pid then
    .ok ("No data found for patient_id=" ++ intRender pid ++ ".", .notFound pid, 0)
  else
    match get_patient_bundle ts pid with
    | .error e => .error e
    | .ok bundle =>
      let eid := bundle.latest_episode_id
      match get_episode_bundle ts pid eid with
      | .error e => .error e
      | .ok epb =>
        match prepare_summary_inputs epb pid eid with
        | .error e => .error e
        | .ok si =>
          let prompt := build_prompt si
          if use_llm then
            match llm prompt model with
            | .ok text => .ok (text, .success pid eid use_llm model, 1)
            | .error e =>
              .ok (template_generate si,
                   .fallback pid eid use_llm model e (strTake prompt 500), 1)
          else .ok (template_generate si, .skipped pid eid use_llm model, 0)

/-- strLower models Python `str.lower()`. -/
def strLower (s : String) : String :=
  ⟨s.data.map Char.toLower⟩

/-- isPreL decides whether the first list starts the second. -/
def isPreL : List Char → List Char → Bool
  | [], _ => true
  | _ :: _, [] => false
  | a :: as, b :: bs => a == b && isPreL as bs

/-- hasSubL decides whether the pattern occurs contiguously in the list. -/
def hasSubL (pat : List Char) : List Char → Bool
  | [] => isPreL pat []
  | c :: cs => isPreL pat (c :: cs) || hasSubL pat cs

/-- containsSub models the Python test `pat in s` on strings. -/
def containsSub (s pat : String) : Bool :=
  hasSubL pat.data s.data

/-- isTempReject models the error-text test of `call_llm` that recognises a
rejected sampling-temperature parameter. -/
def isTempReject (e : String) : Bool :=
  let err := strLower e
  containsSub err "temperature" &&
    (containsSub err "unsupported" || containsSub err "only the default" ||
     containsSub err "does not support")

/-- call_llm models the source function.  The completion client is a
parameter whose boolean argument records whether the temperature parameter
is passed; the second result component lists the invocations made. -/
def call_llm (client : Bool → Except String String) :
    Except String String × List Bool :=
  match client true with
  | .ok resp => (.ok (pyStrip resp), [true])
  | .error e =>
    if isTempReject e then
      match client false with
      | .ok resp => (.ok (pyStrip resp), [true, false])
      | .error e2 => (.error e2, [true, false])
    else (.error e, [true])

/-- hasTag detects a citation tag opener in a rendered text. -/
def hasTag (s : String) : Bool :=
  containsSub s "[Source:"

/-- noBracketL holds when no opening bracket occurs in the characters. -/
def noBracketL (l : List Char) : Bool :=
  l.all (fun c => c != '[')

/-- noBracketS holds when no opening bracket occurs in the string. -/
def noBracketS (s : String) : Bool :=
  noBracketL s.data

/-- tagSafe holds when every opening bracket in the characters is not
immediately followed by a capital S, so no citation tag can occur. -/
def tagSafe : List Char → Bool
  | [] => true
  | c :: cs =>
    (c != '[' || (match cs with | [] => true | d :: _ => d != 'S')) && tagSafe cs

/-- tagSafeS is `tagSafe` on a string. -/
def tagSafeS (s : String) : Bool :=
  tagSafe s.data

/-- headNotS holds when the string does not start with a capital S. -/
def headNotS (s : String) : Bool :=
  match s.data with
  | [] => true
  | c :: _ => c != 'S'

/-- tagOk strengthens tagSafe with the absence of a trailing opening
bracket, so that tagOk pieces concatenate to tagOk text. -/
def tagOk (s : String) : Bool :=
  tagSafeS s && !(s.data.getLast? == some '[')

/-- benign holds when every data field interpolated into the fallback
template is free of opening brackets, and every note date renders without
a leading capital S; it rules out citation-tag injection through data. -/
def benign (si : SummaryInputs) : Bool :=
  si.diagnoses_summary.all noBracketS &&
  si.medications_summary.all (fun m =>
    noBracketS m.name && noBracketS m.frequency && noBracketS m.reason) &&
  noBracketS (fmtDateT si.vitals_summary.latest_date) &&
  si.vitals_summary.latest_vitals.all (fun p => noBracketS (showValue p.1)) &&
  si.vitals_summary.abnormal.all noBracketS &&
  si.wounds_summary.all (fun w =>
    noBracketS w.location && noBracketS w.description &&
    noBracketS (fmtDateT w.onset_date) && noBracketS (fmtDateT w.visit_date)) &&
  noBracketS (fmtDateT si.oasis_summary.latest_date) &&
  noBracketS (pyOr si.oasis_summary.assessment_type "Not documented") &&
  si.oasis_summary.adl.all (fun kv => noBracketS kv.1 && noBracketS kv.2) &&
  si.note_highlights.all (fun n =>
    noBracketS n.type && noBracketS n.snippet &&
    noBracketS (fmtDateT n.date) && headNotS (fmtDateT n.date))

/-- tableWF holds when every row key of the table lies in its schema, as is
always the case for a pandas dataframe. -/
def tableWF (t : Table) : Bool :=
  t.rows.all (fun r => r.all (fun p => t.cols.contains p.1))

/-- tablesWF holds when every table of the dictionary is well formed. -/
def tablesWF (ts : Tables) : Bool :=
  ts.all (fun nt => tableWF nt.2)

/-- idTyped holds when every episode id cell in every table is missing or an
integer, as the loader guarantees with its nullable-integer coercion. -/
def idTyped (ts : Tables) : Bool :=
  ts.all (fun nt => nt.2.rows.all (fun r =>
    match rowGet r "episode_id" with
    | none => true
    | some (.vInt _) => true
    | some _ => false))

/-- dateTyped holds when, in each of the four date-priority tables, every
cell of its date column is missing or a datetime, as the loader guarantees
with its coerced datetime columns. -/
def dateTyped (ts : Tables) : Bool :=
  DATE_PRIORITY.all (fun nc =>
    match lookupTable ts nc.1 with
    | none => true
    | some t => t.rows.all (fun r =>
        match rowGet r nc.2 with
        | none => true
        | some (.vDate _) => true
        | some _ => false))

/-- tableDatedRows names, following the specification text, the rows of one
date-priority table that belong to the patient and carry both a date and an
episode id. -/
def tableDatedRows (ts : Tables) (pid : Int) (nc : String × String) : List Row :=
  match lookupTable ts nc.1 with
  | none => []
  | some df =>
    (filterByPatient df pid).rows.filter
      (fun r => (rowGet r nc.2).isSome && (rowGet r "episode_id").isSome)

/-- entryOf reads the (date, episode) pair off a dated row. -/
def entryOf (dcol : String) (r : Row) : Option (Value × Value) :=
  match rowGet r dcol, rowGet r "episode_id" with
  | some d, some e => some (d, e)
  | _, _ => none

/-- tablePairs lists the (date, episode) pairs of one date-priority table. -/
def tablePairs (ts : Tables) (pid : Int) (nc : String × String) : List (Value × Value) :=
  (tableDatedRows ts pid nc).filterMap (entryOf nc.2)

/-- datedPairs lists, following the specification text, the (date, episode)
pairs of all dated patient rows across the four date-priority tables. -/
def datedPairs (ts : Tables) (pid : Int) : List (Value × Value) :=
  (DATE_PRIORITY.map (tablePairs ts pid)).flatten

/-- combineO is the pure content of one `scanStep`: the running best is
replaced only when the candidate date is strictly larger. -/
def combineO (best : Option (Int × Value)) (o : Option (Int × Value)) :
    Option (Int × Value) :=
  match o with
  | none => best
  | some p =>
    match best with
    | none => some p
    | some q => if valueLt q.2 p.2 then some p else some q

/-- winnerO is the candidate one date-priority table contributes: the last
stored dated patient row attaining the maximal date, with its episode id. -/
def winnerO (ts : Tables) (pid : Int) (nc : String × String) : Option (Int × Value) :=
  (lastMaxR (leRowBy nc.2) (tableDatedRows ts pid nc)).bind (fun w =>
    match rowGet w nc.2, rowGet w "episode_id" with
    | some d, some (.vInt k) => some (k, d)
    | _, _ => none)

/-- specBest combines the four per-table candidates in priority order. -/
def specBest (ts : Tables) (pid : Int) : Option (Int × Value) :=
  (DATE_PRIORITY.map (winnerO ts pid)).foldl combineO none

/-- valueLe is total. -/
theorem valueLe_total (a b : Value) : valueLe a b = true ∨ valueLe b a = true := by
  cases a <;> cases b <;> simp [valueLe, valueRank] <;>
    first
    | omega
    | exact Int.le_total _ _
    | exact le_total _ _

/-- valueLe is reflexive. -/
theorem valueLe_refl (a : Value) : valueLe a a = true := by
  cases a <;> simp [valueLe]

/-- valueLe is transitive. -/
theorem valueLe_trans {a b c : Value} (hab : valueLe a b = true)
    (hbc : valueLe b c = true) : valueLe a c = true := by
  cases a <;> cases b <;> cases c <;>
    simp_all [valueLe, valueRank] <;>
    first
    | omega
    | exact le_trans hab hbc

/-- cellLe is total. -/
theorem cellLe_total (a b : Cell) : cellLe a b = true ∨ cellLe b a = true := by
  cases a <;> cases b <;> simp [cellLe]
  exact valueLe_total _ _

/-- cellLe is transitive. -/
theorem cellLe_trans {a b c : Cell} (hab : cellLe a b = true)
    (hbc : cellLe b c = true) : cellLe a c = true := by
  cases a <;> cases b <;> cases c <;> simp_all [cellLe]
  exact valueLe_trans hab hbc

/-- leRowBy is total. -/
theorem leRowBy_total (dcol : String) (a b : Row) :
    leRowBy dcol a b = true ∨ leRowBy dcol b a = true :=
  cellLe_total _ _

/-- leRowBy is transitive. -/
theorem leRowBy_trans {dcol : String} {a b c : Row}
    (hab : leRowBy dcol a b = true) (hbc : leRowBy dcol b c = true) :
    leRowBy dcol a c = true :=
  cellLe_trans hab hbc

/-- mem_of_getLast?_eq extracts membership from the last element. -/
theorem mem_of_getLast?_eq {α : Type} : ∀ {l : List α} {a : α},
    l.getLast? = some a → a ∈ l
  | [], _, h => by simp at h
  | [x], a, h => by
    simp [List.getLast?] at h
    simp [h]
  | x :: y :: t, a, h => by
    rw [List.getLast?_cons_cons] at h
    exact List.mem_cons_of_mem x (mem_of_getLast?_eq h)

/-- insertLe never returns the empty list. -/
theorem insertLe_ne_nil {α : Type} (le : α → α → Bool) (a : α) (l : List α) :
    insertLe le a l ≠ [] := by
  cases l with
  | nil => simp [insertLe]
  | cons b bs =>
    simp only [insertLe]
    split <;> simp

/-- insertLe permutes the element onto the list. -/
theorem perm_insertLe {α : Type} (le : α → α → Bool) (a : α) (l : List α) :
    List.Perm (insertLe le a l) (a :: l) := by
  induction l with
  | nil => simp [insertLe]
  | cons b bs ih =>
    simp only [insertLe]
    split
    · exact List.Perm.refl _
    · exact ((ih).cons b).trans (List.Perm.swap a b bs)

/-- sortAsc permutes its input. -/
theorem perm_sortAsc {α : Type} (le : α → α → Bool) (l : List α) :
    List.Perm (sortAsc le l) l := by
  induction l with
  | nil => exact List.Perm.refl _
  | cons a as ih =>
    exact (perm_insertLe le a (sortAsc le as)).trans (ih.cons a)

/-- insertLe preserves sortedness. -/
theorem pairwise_insertLe {α : Type} (le : α → α → Bool)
    (htot : ∀ a b : α, le a b = true ∨ le b a = true)
    (htrans : ∀ {a b c : α}, le a b = true → le b c = true → le a c = true)
    (a : α) (l : List α)
    (hl : l.Pairwise (fun x y => le x y = true)) :
    (insertLe le a l).Pairwise (fun x y => le x y = true) := by
  induction l with
  | nil => simp [insertLe]
  | cons b bs ih =>
    rcases List.pairwise_cons.mp hl with ⟨hb, hbs⟩
    simp only [insertLe]
    split
    · rename_i hab
      refine List.pairwise_cons.mpr ⟨?_, hl⟩
      intro x hx
      rcases List.mem_cons.mp hx with h | hx
      · exact h ▸ hab
      · exact htrans hab (hb x hx)
    · rename_i hab
      have hba : le b a = true := by
        rcases htot a b with h | h
        · exact absurd h hab
        · exact h
      refine List.pairwise_cons.mpr ⟨?_, ih hbs⟩
      intro x hx
      have hx2 : x ∈ a :: bs := (perm_insertLe le a bs).mem_iff.mp hx
      rcases List.mem_cons.mp hx2 with h | hx3
      · exact h ▸ hba
      · exact hb x hx3

/-- sortAsc sorts ascending. -/
theorem pairwise_sortAsc {α : Type} (le : α → α → Bool)
    (htot : ∀ a b : α, le a b = true ∨ le b a = true)
    (htrans : ∀ {a b c : α}, le a b = true → le b c = true → le a c = true)
    (l : List α) :
    (sortAsc le l).Pairwise (fun x y => le x y = true) := by
  induction l with
  | nil => simp [sortAsc]
  | cons a as ih =>
    exact pairwise_insertLe le htot (fun h h2 => htrans h h2) a _ ih

/-- getLast of an insertion into a sorted list keeps the old maximum unless
the new element is strictly above it. -/
theorem getLast?_insertLe {α : Type} (le : α → α → Bool)
    (htot : ∀ a b : α, le a b = true ∨ le b a = true)
    (htrans : ∀ {a b c : α}, le a b = true → le b c = true → le a c = true)
    (a : α) (l : List α)
    (hl : l.Pairwise (fun x y => le x y = true)) :
    (insertLe le a l).getLast? =
      some (match l.getLast? with
            | none => a
            | some b => if le a b then b else a) := by
  induction l with
  | nil => simp [insertLe]
  | cons b bs ih =>
    rcases List.pairwise_cons.mp hl with ⟨hb, hbs⟩
    simp only [insertLe]
    split
    · rename_i hab
      cases bs with
      | nil => simp [List.getLast?_cons_cons, List.getLast?, hab]
      | cons c cs =>
        rcases hx : (c :: cs).getLast? with _ | x
        · simp [List.getLast?_eq_none_iff] at hx
        · have hxmem : x ∈ c :: cs := mem_of_getLast?_eq hx
          have hbx : le b x = true := hb x hxmem
          have hax : le a x = true := htrans hab hbx
          simp [List.getLast?_cons_cons, hx, hax]
    · rename_i hab
      have hne : insertLe le a bs ≠ [] := insertLe_ne_nil le a bs
      have hcons : (b :: insertLe le a bs).getLast? = (insertLe le a bs).getLast? := by
        cases hi : insertLe le a bs with
        | nil => exact absurd hi hne
        | cons y ys => simp [hi, List.getLast?_cons_cons]
      rw [hcons, ih hbs]
      cases bs with
      | nil => simp [List.getLast?, hab]
      | cons c cs => simp [List.getLast?_cons_cons]

/-- getLast of the stable ascending sort is the last maximum of the list. -/
theorem getLast?_sortAsc {α : Type} (le : α → α → Bool)
    (htot : ∀ a b : α, le a b = true ∨ le b a = true)
    (htrans : ∀ {a b c : α}, le a b = true → le b c = true → le a c = true)
    (l : List α) :
    (sortAsc le l).getLast? = lastMaxR le l := by
  induction l with
  | nil => simp [sortAsc, lastMaxR]
  | cons a as ih =>
    have hs := pairwise_sortAsc le htot (fun h h2 => htrans h h2) as
    rw [sortAsc.eq_def]
    rw [getLast?_insertLe le htot (fun h h2 => htrans h h2) a _ hs, ih]
    cases has : lastMaxR le as with
    | none =>
      have hnil : as = [] := by
        cases as with
        | nil => rfl
        | cons b bs =>
          simp only [lastMaxR] at has
          cases h : lastMaxR le bs <;> simp [h] at has
      subst hnil
      simp [sortAsc, lastMaxR]
    | some b =>
      have hne : sortAsc le as ≠ [] := by
        intro h
        have hp := perm_sortAsc le as
        rw [h] at hp
        have hnil : as = [] := hp.symm.eq_nil
        subst hnil
        simp [lastMaxR] at has
      rcases hs2 : sortAsc le as with _ | ⟨y, ys⟩
      · exact absurd hs2 hne
      · simp [lastMaxR, has, ← hs2]

/-- lastMaxR is none exactly on the empty list. -/
theorem lastMaxR_none_iff {α : Type} (le : α → α → Bool) (l : List α) :
    lastMaxR le l = none ↔ l = [] := by
  cases l with
  | nil => simp [lastMaxR]
  | cons a as =>
    simp only [lastMaxR]
    cases h : lastMaxR le as <;> simp

/-- lastMaxR returns a member of the list. -/
theorem lastMaxR_mem {α : Type} (le : α → α → Bool) :
    ∀ {l : List α} {b : α}, lastMaxR le l = some b → b ∈ l := by
  intro l
  induction l with
  | nil => intro b h; simp [lastMaxR] at h
  | cons a as ih =>
    intro b h
    simp only [lastMaxR] at h
    cases has : lastMaxR le as with
    | none => rw [has] at h; simp at h; simp [h]
    | some c =>
      rw [has] at h
      simp at h
      split at h
      · exact h ▸ List.mem_cons_of_mem a (ih has)
      · simp [← h]

/-- lastMaxR returns an upper bound of the list. -/
theorem lastMaxR_isMax {α : Type} (le : α → α → Bool)
    (htot : ∀ a b : α, le a b = true ∨ le b a = true)
    (htrans : ∀ {a b c : α}, le a b = true → le b c = true → le a c = true) :
    ∀ {l : List α} {b : α}, lastMaxR le l = some b → ∀ x ∈ l, le x b = true := by
  intro l
  induction l with
  | nil => intro b h; simp [lastMaxR] at h
  | cons a as ih =>
    intro b h x hx
    have hrefl : ∀ y : α, le y y = true := by
      intro y
      rcases htot y y with h | h <;> exact h
    simp only [lastMaxR] at h
    cases has : lastMaxR le as with
    | none =>
      rw [has] at h
      simp at h
      have : as = [] := (lastMaxR_none_iff le as).mp has
      subst this
      rcases List.mem_cons.mp hx with rfl | hx
      · exact h ▸ hrefl x
      · simp at hx
    | some c =>
      rw [has] at h
      simp at h
      rcases List.mem_cons.mp hx with rfl | hx
      · split at h
        · exact h ▸ ‹le x c = true›
        · exact h ▸ hrefl x
      · have hxc : le x c = true := ih has x hx
        split at h
        · exact h ▸ hxc
        · rename_i hac
          have hca : le c a = true := by
            rcases htot a c with h2 | h2
            · exact absurd h2 hac
            · exact h2
          exact h ▸ htrans hxc hca

/-- lastMaxR picks the last maximum: every later element is strictly below. -/
theorem lastMaxR_split {α : Type} (le : α → α → Bool)
    (htot : ∀ a b : α, le a b = true ∨ le b a = true)
    (htrans : ∀ {a b c : α}, le a b = true → le b c = true → le a c = true) :
    ∀ {l : List α} {b : α}, lastMaxR le l = some b →
      ∃ l₁ l₂, l = l₁ ++ b :: l₂ ∧ ∀ x ∈ l₂, le x b = true ∧ le b x = false := by
  intro l
  induction l with
  | nil => intro b h; simp [lastMaxR] at h
  | cons a as ih =>
    intro b h
    simp only [lastMaxR] at h
    cases has : lastMaxR le as with
    | none =>
      rw [has] at h
      simp at h
      have : as = [] := (lastMaxR_none_iff le as).mp has
      subst this
      exact ⟨[], [], by simp [h], by simp⟩
    | some c =>
      rw [has] at h
      simp at h
      split at h
      · rename_i hac
        rcases ih has with ⟨l₁, l₂, heq, hl₂⟩
        exact ⟨a :: l₁, l₂, by simp [heq, h], h ▸ hl₂⟩
      · rename_i hac
        refine ⟨[], as, by simp [h], ?_⟩
        intro x hx
        have hxc : le x c = true := lastMaxR_isMax le htot (fun u v => htrans u v) has x hx
        have hca : le c a = true := by
          rcases htot a c with h2 | h2
          · exact absurd h2 hac
          · exact h2
        have hxa : le x a = true := htrans hxc hca
        refine ⟨h ▸ hxa, ?_⟩
        subst h
        by_contra hbx
        simp at hbx
        exact hac (htrans hbx hxc)

/-- sortDescRows permutes its input. -/
theorem perm_sortDescRows (dcol : String) (rows : List Row) :
    List.Perm (sortDescRows dcol rows) rows := by
  unfold sortDescRows
  rw [List.partition_eq_filter_filter]
  simp only
  simp only [Function.comp_def]
  refine List.Perm.trans ?_ (rows.filter_append_perm (fun r => (rowGet r dcol).isSome))
  exact List.Perm.append ((List.reverse_perm _).trans
    (perm_sortAsc _ _)) (List.Perm.refl _)

/-- On rows whose date cells are all present, the head of the descending
sort is the last stored row attaining the maximal date. -/
theorem head?_sortDescRows (dcol : String) (rows : List Row)
    (hall : ∀ r ∈ rows, (rowGet r dcol).isSome = true) :
    (sortDescRows dcol rows).head? = lastMaxR (leRowBy dcol) rows := by
  unfold sortDescRows
  rw [List.partition_eq_filter_filter]
  simp only [Function.comp_def]
  have h1 : rows.filter (fun r => (rowGet r dcol).isSome) = rows :=
    List.filter_eq_self.mpr hall
  have h2 : rows.filter (fun r => !(rowGet r dcol).isSome) = [] := by
    rw [List.filter_eq_nil_iff]
    intro r hr
    simp [hall r hr]
  rw [h1, h2, List.append_nil, List.head?_reverse]
  exact getLast?_sortAsc (leRowBy dcol) (leRowBy_total dcol)
    (fun h h2 => leRowBy_trans h h2) rows

/-- valueLt fails backwards: a non-strictly-smaller value is above. -/
theorem valueLe_of_not_valueLt {a b : Value} (h : valueLt a b = false) :
    valueLe b a = true := by
  unfold valueLt at h
  rcases valueLe_total a b with h1 | h1
  · simp [h1] at h
    exact h
  · exact h1

/-- valueLt embeds into valueLe. -/
theorem valueLe_of_valueLt {a b : Value} (h : valueLt a b = true) :
    valueLe a b = true := by
  unfold valueLt at h
  rw [Bool.and_eq_true] at h
  exact h.1

/-- valueLt is transitive. -/
theorem valueLt_trans {a b c : Value} (h1 : valueLt a b = true)
    (h2 : valueLt b c = true) : valueLt a c = true := by
  unfold valueLt at h1 h2 ⊢
  rw [Bool.and_eq_true] at h1 h2
  obtain ⟨hab, hnba⟩ := h1
  obtain ⟨hbc, hncb⟩ := h2
  have hac : valueLe a c = true := valueLe_trans hab hbc
  have hca : valueLe c a = false := by
    cases hcc : valueLe c a
    · rfl
    · exfalso
      have h3 : valueLe c b = true := valueLe_trans hcc hab
      simp [h3] at hncb
  simp [hac, hca]

/-- valueLt absorbs a preceding valueLe. -/
theorem valueLt_of_le_of_lt {a b c : Value} (h1 : valueLe a b = true)
    (h2 : valueLt b c = true) : valueLt a c = true := by
  unfold valueLt at h2 ⊢
  rw [Bool.and_eq_true] at h2
  obtain ⟨hbc, hncb⟩ := h2
  have hac : valueLe a c = true := valueLe_trans h1 hbc
  have hca : valueLe c a = false := by
    cases hcc : valueLe c a
    · rfl
    · exfalso
      have h3 : valueLe c b = true := valueLe_trans hcc h1
      simp [h3] at hncb
  simp [hac, hca]

/-- A foldl of combineO yields none exactly when everything is none. -/
theorem foldl_combineO_none (l : List (Option (Int × Value)))
    (b : Option (Int × Value)) :
    (l.foldl combineO b = none ↔ b = none ∧ ∀ o ∈ l, o = none) := by
  induction l generalizing b with
  | nil => simp
  | cons o rest ih =>
    simp only [List.foldl_cons]
    rw [ih]
    constructor
    · rintro ⟨h1, h2⟩
      cases o with
      | none => simp [combineO] at h1; exact ⟨h1, by simpa using h2⟩
      | some p =>
        exfalso
        cases b <;> simp [combineO] at h1 <;> split at h1 <;> simp at h1
    · rintro ⟨h1, h2⟩
      have ho : o = none := h2 o (List.mem_cons_self o rest)
      subst ho h1
      exact ⟨rfl, fun o ho => h2 o (List.mem_cons_of_mem _ ho)⟩

/-- A foldl of combineO returns an option among its inputs which is maximal
for the date order. -/
theorem foldl_combineO_some (l : List (Option (Int × Value)))
    (b : Option (Int × Value)) (p : Int × Value)
    (h : l.foldl combineO b = some p) :
    (b = some p ∨ some p ∈ l) ∧
      (∀ q : Int × Value, (b = some q ∨ some q ∈ l) → valueLe q.2 p.2 = true) := by
  induction l generalizing b with
  | nil =>
    simp at h
    subst h
    refine ⟨Or.inl rfl, ?_⟩
    rintro q (hq | hq)
    · cases hq
      exact valueLe_of_not_valueLt (a := p.2) (b := p.2) (by
        cases hv : valueLt p.2 p.2
        · rfl
        · unfold valueLt at hv
          rw [Bool.and_eq_true] at hv
          obtain ⟨h1, h2⟩ := hv
          simp [h1] at h2)
    · simp at hq
  | cons o rest ih =>
    simp only [List.foldl_cons] at h
    rcases ih (combineO b o) h with ⟨hmem, hmax⟩
    constructor
    · rcases hmem with hmem | hmem
      · cases o with
        | none => simp [combineO] at hmem; exact Or.inl hmem
        | some c =>
          cases b with
          | none =>
            simp [combineO] at hmem
            exact Or.inr (by simp [hmem])
          | some q =>
            simp [combineO] at hmem
            split at hmem
            · exact Or.inr (by simp [hmem])
            · exact Or.inl hmem
      · exact Or.inr (List.mem_cons_of_mem _ hmem)
    · rintro q (hq | hq)
      · subst hq
        cases o with
        | none => exact hmax q (Or.inl (by simp [combineO]))
        | some c =>
          simp only [combineO] at hmax
          by_cases hlt : valueLt q.2 c.2 = true
          · have hcp : valueLe c.2 p.2 = true := hmax c (Or.inl (by simp [hlt]))
            exact valueLe_trans (valueLe_of_valueLt hlt) hcp
          · exact hmax q (Or.inl (by simp [Bool.eq_false_iff.mpr hlt]))
      · rcases List.mem_cons.mp hq with hq | hq
        · cases b with
          | none =>
            have : combineO none o = some q := by simp [combineO, ← hq]
            exact hmax q (Or.inl this)
          | some q0 =>
            simp only [combineO, ← hq] at hmax
            by_cases hlt : valueLt q0.2 q.2 = true
            · exact hmax q (Or.inl (by simp [hlt]))
            · have hq0p : valueLe q0.2 p.2 = true :=
                hmax q0 (Or.inl (by simp [Bool.eq_false_iff.mpr hlt]))
              exact valueLe_trans (valueLe_of_not_valueLt (Bool.eq_false_iff.mpr hlt)) hq0p
        · exact hmax q (Or.inr hq)

/-- A row of a well-formed table has no cell outside the schema. -/
theorem rowGet_none_of_notin {t : Table} {r : Row} {c : String}
    (hwf : tableWF t = true) (hr : r ∈ t.rows) (hc : c ∉ t.cols) :
    rowGet r c = none := by
  unfold rowGet
  cases hf : r.find? (fun p => p.1 == c) with
  | none => rfl
  | some p =>
    exfalso
    have hpm : p ∈ r := List.mem_of_find?_eq_some hf
    have hpc := List.find?_some hf
    have hpc2 : p.1 = c := by simpa using hpc
    unfold tableWF at hwf
    rw [List.all_eq_true] at hwf
    have h2 := hwf r hr
    rw [List.all_eq_true] at h2
    have h3 := h2 p hpm
    rw [hpc2] at h3
    exact hc (by simpa using h3)

/-- A successful table lookup is a member of the dictionary. -/
theorem lookupTable_mem {ts : Tables} {n : String} {t : Table}
    (h : lookupTable ts n = some t) : (n, t) ∈ ts := by
  unfold lookupTable at h
  cases hf : ts.find? (fun p => p.1 == n) with
  | none => rw [hf] at h; simp at h
  | some p =>
    rw [hf] at h
    simp at h
    have hm := List.mem_of_find?_eq_some hf
    have hn := List.find?_some hf
    have hn2 : p.1 = n := by simpa using hn
    have hpt : (n, t) = p := by
      cases p
      simp_all
    rw [hpt]
    exact hm

/-- Members of a well-formed dictionary are well-formed tables. -/
theorem tablesWF_mem {ts : Tables} {n : String} {t : Table}
    (hwf : tablesWF ts = true) (h : (n, t) ∈ ts) : tableWF t = true := by
  unfold tablesWF at hwf
  rw [List.all_eq_true] at hwf
  exact hwf (n, t) h

/-- In an id-typed dictionary, every episode cell is missing or an integer. -/
theorem idTyped_mem {ts : Tables} {n : String} {t : Table} {r : Row}
    (hid : idTyped ts = true) (h : (n, t) ∈ ts) (hr : r ∈ t.rows) :
    rowGet r "episode_id" = none ∨ ∃ k, rowGet r "episode_id" = some (.vInt k) := by
  unfold idTyped at hid
  rw [List.all_eq_true] at hid
  have h2 := hid (n, t) h
  rw [List.all_eq_true] at h2
  have h3 := h2 r hr
  cases hg : rowGet r "episode_id" with
  | none => exact Or.inl rfl
  | some v =>
    cases v with
    | vInt k => exact Or.inr ⟨k, rfl⟩
    | vStr s => rw [hg] at h3; simp at h3
    | vDate d => rw [hg] at h3; simp at h3

/-- The patient filter preserves the schema. -/
theorem filterByPatient_cols (t : Table) (pid : Int) :
    (filterByPatient t pid).cols = t.cols := by
  unfold filterByPatient
  split
  · rfl
  · split <;> rfl

/-- A row surviving the patient filter is an original row matching the
patient id, and the table carries the key column. -/
theorem filterByPatient_spec {t : Table} {pid : Int} {r : Row}
    (h : r ∈ (filterByPatient t pid).rows) :
    r ∈ t.rows ∧ rowGet r "patient_id" = some (.vInt pid) ∧
      "patient_id" ∈ t.cols := by
  unfold filterByPatient at h
  by_cases hemp : t.rows.isEmpty
  · exfalso
    rw [List.isEmpty_iff] at hemp
    simp [hemp] at h
  · by_cases hcol : "patient_id" ∈ t.cols
    · simp [hemp, hcol, List.mem_filter] at h
      refine ⟨h.1, ?_, hcol⟩
      have := h.2
      simpa using this
    · simp [hemp, hcol] at h

/-- The rows dropped to dated episode rows inside `scanStep` coincide with
the specification-side `tableDatedRows`. -/
theorem tableDatedRows_eq {ts : Tables} {pid : Int} {nc : String × String}
    {df : Table} (hlk : lookupTable ts nc.1 = some df) :
    tableDatedRows ts pid nc =
      (filterByPatient df pid).rows.filter
        (fun r => (rowGet r nc.2).isSome && (rowGet r "episode_id").isSome) := by
  unfold tableDatedRows
  rw [hlk]

/-- scanStep computes exactly the combine of the running best with the
per-table winner, for well-formed id-typed tables. -/
theorem scanStep_eq (ts : Tables) (pid : Int) (best : Option (Int × Value))
    (nc : String × String) (hwf : tablesWF ts = true) (hid : idTyped ts = true) :
    scanStep ts pid best nc = .ok (combineO best (winnerO ts pid nc)) := by
  unfold scanStep winnerO
  cases hlk : lookupTable ts nc.1 with
  | none =>
    simp only [tableDatedRows, hlk, lastMaxR, Option.none_bind, combineO]
  | some df =>
    rw [tableDatedRows_eq hlk]
    have hdf : (nc.1, df) ∈ ts := lookupTable_mem hlk
    have hwfdf : tableWF df = true := tablesWF_mem hwf hdf
    set pdf := filterByPatient df pid with hpdf
    set dropped := pdf.rows.filter
      (fun r => (rowGet r nc.2).isSome && (rowGet r "episode_id").isSome) with hdropped
    by_cases hemp : df.rows.isEmpty
    · have hpdfe : pdf.rows = [] := by
        rw [List.isEmpty_iff] at hemp
        rw [hpdf]
        unfold filterByPatient
        simp [hemp]
      have : dropped = [] := by rw [hdropped, hpdfe]; rfl
      simp [hemp, this, lastMaxR, combineO]
    · simp only [hemp, Bool.false_eq_true, if_false]
      by_cases hdc : nc.2 ∈ df.cols
      · simp only [hdc, not_true_eq_false, if_false]
        by_cases hpe : pdf.rows.isEmpty
        · have : dropped = [] := by
            rw [hdropped, List.isEmpty_iff.mp hpe]
            rfl
          simp [hpe, this, lastMaxR, combineO]
        · simp only [hpe, Bool.false_eq_true, if_false]
          by_cases hec : "episode_id" ∈ pdf.cols
          · simp only [hec, not_true_eq_false, if_false]
            by_cases hde : dropped.isEmpty
            · have : dropped = [] := List.isEmpty_iff.mp hde
              simp [hde, this, lastMaxR, combineO]
            · simp only [hde, Bool.false_eq_true, if_false]
              have hdne : dropped ≠ [] := by
                intro h
                rw [h] at hde
                simp at hde
              have hall : ∀ r ∈ dropped, (rowGet r nc.2).isSome = true := by
                intro r hr
                rw [hdropped] at hr
                have := (List.mem_filter.mp hr).2
                exact (Bool.and_eq_true _ _ ▸ this).1
              have halle : ∀ r ∈ dropped, (rowGet r "episode_id").isSome = true := by
                intro r hr
                rw [hdropped] at hr
                have := (List.mem_filter.mp hr).2
                exact (Bool.and_eq_true _ _ ▸ this).2
              rw [head?_sortDescRows nc.2 dropped hall]
              cases hlm : lastMaxR (leRowBy nc.2) dropped with
              | none => exact absurd ((lastMaxR_none_iff _ _).mp hlm) hdne
              | some w =>
                have hwmem : w ∈ dropped := lastMaxR_mem _ hlm
                have hwdf : w ∈ df.rows := by
                  have : w ∈ pdf.rows := List.mem_of_mem_filter (hdropped ▸ hwmem)
                  exact (filterByPatient_spec this).1
                cases hdt : rowGet w nc.2 with
                | none =>
                  exfalso
                  have hs := hall w hwmem
                  rw [hdt] at hs
                  simp at hs
                | some dt =>
                  cases hep : rowGet w "episode_id" with
                  | none =>
                    exfalso
                    have := halle w hwmem
                    rw [hep] at this
                    simp at this
                  | some epv =>
                    rcases idTyped_mem hid hdf hwdf with hnone | ⟨k, hk⟩
                    · rw [hnone] at hep; simp at hep
                    · rw [hk] at hep
                      cases hep
                      simp only [toIntE, Option.some_bind, hdt, hk, combineO]
                      cases best with
                      | none => rfl
                      | some q => rfl
          · simp [hec, combineO]
            have : dropped = [] := by
              rw [hdropped, List.filter_eq_nil_iff]
              intro r hr
              have hrdf : r ∈ df.rows := (filterByPatient_spec hr).1
              have hcols : pdf.cols = df.cols := filterByPatient_cols df pid
              have : rowGet r "episode_id" = none :=
                rowGet_none_of_notin hwfdf hrdf (by rw [← hcols]; exact hec)
              simp [this]
            simp [this, lastMaxR]
      · simp only [hdc, not_false_eq_true, if_true]
        have : dropped = [] := by
          rw [hdropped, List.filter_eq_nil_iff]
          intro r hr
          have hrdf : r ∈ df.rows := (filterByPatient_spec hr).1
          have : rowGet r nc.2 = none := rowGet_none_of_notin hwfdf hrdf hdc
          simp [this]
        simp [this, lastMaxR, combineO]

/-- scanFold is the pure fold of the per-table winners, for well-formed
id-typed tables. -/
theorem scanFold_eq (ts : Tables) (pid : Int) (hwf : tablesWF ts = true)
    (hid : idTyped ts = true) :
    ∀ (L : List (String × String)) (b : Option (Int × Value)),
      scanFold ts pid b L = .ok ((L.map (winnerO ts pid)).foldl combineO b) := by
  intro L
  induction L with
  | nil => intro b; rfl
  | cons nc rest ih =>
    intro b
    simp only [scanFold, scanStep_eq ts pid b nc hwf hid, List.map_cons,
      List.foldl_cons]
    exact ih (combineO b (winnerO ts pid nc))

/-- A head is a member. -/
theorem mem_of_head?_eq {α : Type} {l : List α} {a : α}
    (h : l.head? = some a) : a ∈ l := by
  cases l with
  | nil => simp at h
  | cons x xs =>
    simp at h
    simp [h]

/-- toIntE succeeds only on an integer scalar with that value. -/
theorem toIntE_ok {v : Value} {k : Int} (h : toIntE v = .ok k) :
    v = .vInt k := by
  cases v <;> simp [toIntE] at h <;> simp [h]

/-- Whatever scanStep returns is either the running best unchanged or a
candidate read off a dated patient row of the looked-up table. -/
theorem scanStep_provenance {ts : Tables} {pid : Int} {b b2 : Option (Int × Value)}
    {nc : String × String} (h : scanStep ts pid b nc = .ok b2) :
    b2 = b ∨ ∃ (df : Table) (w : Row) (k : Int) (dt : Value),
      lookupTable ts nc.1 = some df ∧ w ∈ (filterByPatient df pid).rows ∧
      "episode_id" ∈ df.cols ∧ rowGet w "episode_id" = some (.vInt k) ∧
      b2 = some (k, dt) := by
  simp only [scanStep] at h
  split at h
  · simp at h
    exact Or.inl h.symm
  · rename_i df hlk
    split at h
    · simp at h
      exact Or.inl h.symm
    · split at h
      · simp at h
        exact Or.inl h.symm
      · split at h
        · simp at h
          exact Or.inl h.symm
        · split at h
          · simp at h
            exact Or.inl h.symm
          · split at h
            · simp at h
              exact Or.inl h.symm
            · rename_i hemp hdc hpe hec hde
              split at h
              · simp at h
              · rename_i w hh
                have hwmem : w ∈ (filterByPatient df pid).rows.filter
                    (fun r => (rowGet r nc.2).isSome && (rowGet r "episode_id").isSome) :=
                  (perm_sortDescRows nc.2 _).subset (mem_of_head?_eq hh)
                have hwpdf : w ∈ (filterByPatient df pid).rows :=
                  List.mem_of_mem_filter hwmem
                have hecols : "episode_id" ∈ df.cols := by
                  rw [← filterByPatient_cols df pid]
                  exact not_not.mp hec
                split at h
                · simp at h
                · rename_i epv hep
                  split at h
                  · simp at h
                  · rename_i k hto
                    split at h
                    · simp at h
                    · rename_i dt hdt
                      simp only [Except.ok.injEq] at h
                      have hvint : epv = .vInt k := toIntE_ok hto
                      cases b with
                      | none =>
                        exact Or.inr ⟨df, w, k, dt, hlk, hwpdf, hecols,
                          hvint ▸ hep, h.symm⟩
                      | some q =>
                        obtain ⟨be, bd⟩ := q
                        change (if valueLt bd dt = true then some (k, dt)
                          else some (be, bd)) = b2 at h
                        split at h
                        · exact Or.inr ⟨df, w, k, dt, hlk, hwpdf, hecols,
                            hvint ▸ hep, h.symm⟩
                        · exact Or.inl h.symm

/-- scanFold provenance: a returned candidate is the initial best or comes
from a dated patient row of one of the scanned tables. -/
theorem scanFold_provenance {ts : Tables} {pid : Int} {b out : Option (Int × Value)} :
    ∀ {L : List (String × String)}, scanFold ts pid b L = .ok out →
      out = b ∨ ∃ nc ∈ L, ∃ (df : Table) (w : Row) (k : Int) (dt : Value),
        lookupTable ts nc.1 = some df ∧ w ∈ (filterByPatient df pid).rows ∧
        "episode_id" ∈ df.cols ∧ rowGet w "episode_id" = some (.vInt k) ∧
        out = some (k, dt) := by
  intro L
  induction L generalizing b with
  | nil =>
    intro h
    simp [scanFold] at h
    exact Or.inl h.symm
  | cons nc rest ih =>
    intro h
    simp only [scanFold] at h
    cases hs : scanStep ts pid b nc with
    | error e => rw [hs] at h; simp at h
    | ok b1 =>
      rw [hs] at h
      rcases ih h with hout | ⟨nc2, hnc2, rest2⟩
      · subst hout
        rcases scanStep_provenance hs with hb | ⟨df, w, k, dt, h1, h2, h3, h4, h5⟩
        · exact Or.inl hb
        · exact Or.inr ⟨nc, List.mem_cons_self nc rest, df, w, k, dt, h1, h2, h3, h4, h5⟩
      · exact Or.inr ⟨nc2, List.mem_cons_of_mem nc hnc2, rest2⟩

/-- winnerO inverted: a winner is read off the last maximal dated row. -/
theorem winnerO_spec {ts : Tables} {pid : Int} {nc : String × String}
    {k : Int} {d : Value} (h : winnerO ts pid nc = some (k, d)) :
    ∃ w, lastMaxR (leRowBy nc.2) (tableDatedRows ts pid nc) = some w ∧
      rowGet w nc.2 = some d ∧ rowGet w "episode_id" = some (.vInt k) := by
  unfold winnerO at h
  cases hlm : lastMaxR (leRowBy nc.2) (tableDatedRows ts pid nc) with
  | none => rw [hlm] at h; simp at h
  | some w =>
    rw [hlm] at h
    simp at h
    refine ⟨w, rfl, ?_⟩
    cases hdt : rowGet w nc.2 with
    | none => rw [hdt] at h; simp at h
    | some dv =>
      rw [hdt] at h
      cases hep : rowGet w "episode_id" with
      | none => rw [hep] at h; simp at h
      | some ev =>
        rw [hep] at h
        cases ev with
        | vInt k2 => simp at h; exact ⟨by rw [h.2.symm], by rw [h.1.symm]⟩
        | vStr s => simp at h
        | vDate d2 => simp at h

/-- winnerO is produced whenever the table has a dated patient row, in an
id-typed dictionary. -/
theorem winnerO_some_of_ne {ts : Tables} {pid : Int} {nc : String × String}
    (hid : idTyped ts = true) (hne : tableDatedRows ts pid nc ≠ []) :
    ∃ k d, winnerO ts pid nc = some (k, d) := by
  unfold winnerO
  cases hlm : lastMaxR (leRowBy nc.2) (tableDatedRows ts pid nc) with
  | none => exact absurd ((lastMaxR_none_iff _ _).mp hlm) hne
  | some w =>
    have hwmem : w ∈ tableDatedRows ts pid nc := lastMaxR_mem _ hlm
    unfold tableDatedRows at hwmem
    cases hlk : lookupTable ts nc.1 with
    | none => rw [hlk] at hwmem; simp at hwmem
    | some df =>
      rw [hlk] at hwmem
      have hpred := (List.mem_filter.mp hwmem).2
      rw [Bool.and_eq_true] at hpred
      obtain ⟨hd, he⟩ := hpred
      have hwpdf : w ∈ (filterByPatient df pid).rows :=
        List.mem_of_mem_filter hwmem
      have hwdf : w ∈ df.rows := (filterByPatient_spec hwpdf).1
      rcases idTyped_mem hid (lookupTable_mem hlk) hwdf with hnone | ⟨k, hk⟩
      · rw [hnone] at he; simp at he
      · cases hdt : rowGet w nc.2 with
        | none => rw [hdt] at hd; simp at hd
        | some dv =>
          refine ⟨k, dv, ?_⟩
          simp [hk, hdt]

/-- Membership in a fold of set insertions. -/
theorem mem_foldl_setInsert (ks : List Int) :
    ∀ (s : List Int) (k : Int), k ∈ ks.foldl setInsert s ↔ k ∈ s ∨ k ∈ ks := by
  induction ks with
  | nil => intro s k; simp
  | cons a rest ih =>
    intro s k
    simp only [List.foldl_cons]
    rw [ih]
    unfold setInsert
    constructor
    · rintro (hs | hr)
      · split at hs
        · exact Or.inl hs
        · rcases List.mem_cons.mp hs with rfl | hs
          · exact Or.inr (List.mem_cons_self _ _)
          · exact Or.inl hs
      · exact Or.inr (List.mem_cons_of_mem _ hr)
    · rintro (hs | hm)
      · refine Or.inl ?_
        split
        · exact hs
        · exact List.mem_cons_of_mem _ hs
      · rcases List.mem_cons.mp hm with rfl | hm
        · refine Or.inl ?_
          split
          · assumption
          · exact List.mem_cons_self _ _
        · exact Or.inr hm

/-- setInsert folds preserve the absence of duplicates. -/
theorem nodup_foldl_setInsert (ks : List Int) :
    ∀ (s : List Int), s.Nodup → (ks.foldl setInsert s).Nodup := by
  induction ks with
  | nil => intro s hs; exact hs
  | cons a rest ih =>
    intro s hs
    simp only [List.foldl_cons]
    refine ih _ ?_
    unfold setInsert
    split
    · exact hs
    · exact List.nodup_cons.mpr ⟨by assumption, hs⟩

/-- Membership through the integer conversion map. -/
theorem mapIntE_mem {vs : List Value} {ks : List Int}
    (h : mapIntE vs = .ok ks) : ∀ k : Int, k ∈ ks ↔ Value.vInt k ∈ vs := by
  induction vs generalizing ks with
  | nil =>
    simp [mapIntE] at h
    subst h
    simp
  | cons v rest ih =>
    intro k
    simp only [mapIntE] at h
    cases hto : toIntE v with
    | error e => rw [hto] at h; simp at h
    | ok k0 =>
      rw [hto] at h
      cases hrest : mapIntE rest with
      | error e => rw [hrest] at h; simp at h
      | ok ks0 =>
        rw [hrest] at h
        simp at h
        subst h
        have hv : v = .vInt k0 := toIntE_ok hto
        subst hv
        simp only [List.mem_cons]
        rw [ih hrest]
        constructor
        · rintro (rfl | hk)
          · exact Or.inl rfl
          · exact Or.inr hk
        · rintro (hv | hk)
          · exact Or.inl (by injection hv)
          · exact Or.inr hk

/-- The integer conversion map succeeds on integer-typed values. -/
theorem mapIntE_ok_of_typed {vs : List Value}
    (h : ∀ v ∈ vs, ∃ k, v = Value.vInt k) : ∃ ks, mapIntE vs = .ok ks := by
  induction vs with
  | nil => exact ⟨[], rfl⟩
  | cons v rest ih =>
    rcases h v (List.mem_cons_self _ _) with ⟨k, rfl⟩
    rcases ih (fun v hv => h v (List.mem_cons_of_mem _ hv)) with ⟨ks, hks⟩
    exact ⟨k :: ks, by simp [mapIntE, toIntE, hks]⟩

/-- One table contributes an episode id exactly when one of its patient
rows carries that id; stated in the direction the membership proofs need. -/
theorem episodeIdsOfTable_mem {t : Table} {pid : Int} {ks : List Int}
    (h : episodeIdsOfTable t pid = .ok ks) {r : Row} {k : Int}
    (hr : r ∈ t.rows) (hpat : rowGet r "patient_id" = some (.vInt pid))
    (hpcol : "patient_id" ∈ t.cols) (hecol : "episode_id" ∈ t.cols)
    (hep : rowGet r "episode_id" = some (.vInt k)) : k ∈ ks := by
  unfold episodeIdsOfTable at h
  have hne : t.rows.isEmpty = false := by
    cases ht : t.rows with
    | nil => rw [ht] at hr; simp at hr
    | cons a as => rfl
  rw [hne] at h
  simp only [Bool.false_eq_true, if_false] at h
  rw [if_neg (by simp [hpcol]), if_pos hecol] at h
  rw [mapIntE_mem h]
  refine List.mem_filterMap.mpr ⟨r, ?_, hep⟩
  refine List.mem_filter.mpr ⟨hr, ?_⟩
  simp [hpat]

/-- In an id-typed table the per-table episode collection succeeds. -/
theorem episodeIdsOfTable_ok {ts : Tables} {n : String} {t : Table} {pid : Int}
    (hid : idTyped ts = true) (hmem : (n, t) ∈ ts) :
    ∃ ks, episodeIdsOfTable t pid = .ok ks := by
  unfold episodeIdsOfTable
  by_cases hemp : t.rows.isEmpty
  · exact ⟨[], by simp [hemp]⟩
  · by_cases hpcol : "patient_id" ∈ t.cols
    · by_cases hecol : "episode_id" ∈ t.cols
      · have htyped : ∀ v ∈ (t.rows.filter
            (fun r => rowGet r "patient_id" == some (.vInt pid))).filterMap
              (fun r => rowGet r "episode_id"), ∃ k, v = Value.vInt k := by
          intro v hv
          rcases List.mem_filterMap.mp hv with ⟨r, hr, hrv⟩
          have hrt : r ∈ t.rows := List.mem_of_mem_filter hr
          rcases idTyped_mem hid hmem hrt with hnone | ⟨k, hk⟩
          · rw [hnone] at hrv; simp at hrv
          · rw [hk] at hrv
            exact ⟨k, by injection hrv with h2; exact h2.symm⟩
        rcases mapIntE_ok_of_typed htyped with ⟨ks, hks⟩
        refine ⟨ks, ?_⟩
        simp only [hemp, Bool.false_eq_true, if_false]
        rw [if_neg (by simp [hpcol]), if_pos hecol]
        exact hks
      · exact ⟨[], by simp [hemp, hpcol, hecol]⟩
    · exact ⟨[], by simp [hemp, hpcol]⟩

/-- The episode-set fold succeeds on id-typed tables. -/
theorem episodesFold_ok {ts0 : Tables} {pid : Int} (hid : idTyped ts0 = true) :
    ∀ {ts : Tables}, (∀ nt ∈ ts, nt ∈ ts0) →
      ∀ s : List Int, ∃ out, episodesFold pid s ts = .ok out := by
  intro ts
  induction ts with
  | nil => exact fun _ s => ⟨s, rfl⟩
  | cons nt rest ih =>
    intro hsub s
    rcases @episodeIdsOfTable_ok ts0 nt.1 nt.2 pid hid
      (by exact hsub nt (List.mem_cons_self _ _)) with ⟨ks, hks⟩
    rcases ih (fun x hx => hsub x (List.mem_cons_of_mem _ hx))
      (ks.foldl setInsert s) with ⟨out, hout⟩
    exact ⟨out, by simp [episodesFold, hks, hout]⟩

/-- The episode-set fold keeps its accumulator and collects every table
contribution. -/
theorem episodesFold_spec {pid : Int} :
    ∀ {ts : Tables} {s out : List Int}, episodesFold pid s ts = .ok out →
      (∀ k ∈ s, k ∈ out) ∧
      (∀ nt ∈ ts, ∃ ks, episodeIdsOfTable nt.2 pid = .ok ks ∧ ∀ k ∈ ks, k ∈ out) ∧
      (out.Nodup ∨ ¬ s.Nodup) := by
  intro ts
  induction ts with
  | nil =>
    intro s out h
    simp [episodesFold] at h
    subst h
    refine ⟨fun k hk => hk, by simp, ?_⟩
    by_cases hs : s.Nodup
    · exact Or.inl hs
    · exact Or.inr hs
  | cons nt rest ih =>
    intro s out h
    simp only [episodesFold] at h
    cases hks : episodeIdsOfTable nt.2 pid with
    | error e => rw [hks] at h; simp at h
    | ok ks =>
      rw [hks] at h
      rcases ih h with ⟨hacc, htab, hnd⟩
      refine ⟨?_, ?_, ?_⟩
      · intro k hk
        exact hacc k ((mem_foldl_setInsert ks s k).mpr (Or.inl hk))
      · intro nt2 hnt2
        rcases List.mem_cons.mp hnt2 with rfl | hnt2
        · exact ⟨ks, hks, fun k hk =>
            hacc k ((mem_foldl_setInsert ks s k).mpr (Or.inr hk))⟩
        · exact htab nt2 hnt2
      · rcases hnd with hnd | hnd
        · exact Or.inl hnd
        · by_cases hs : s.Nodup
          · exact absurd (nodup_foldl_setInsert ks s hs) hnd
          · exact Or.inr hs

/-- The fold of max is an element of the candidates. -/
theorem maxInt_mem (h : Int) (t : List Int) : maxInt h t ∈ h :: t := by
  unfold maxInt
  induction t generalizing h with
  | nil => simp
  | cons a rest ih =>
    simp only [List.foldl_cons]
    have hmem := ih (max h a)
    rcases List.mem_cons.mp hmem with heq | hmem2
    · rw [heq]
      rcases max_choice h a with hc | hc
      · rw [hc]; exact List.mem_cons_self _ _
      · rw [hc]; exact List.mem_cons_of_mem _ (List.mem_cons_self _ _)
    · exact List.mem_cons_of_mem _ (List.mem_cons_of_mem _ hmem2)

/-- The fold of max bounds all candidates. -/
theorem maxInt_le (h : Int) (t : List Int) : ∀ x ∈ h :: t, x ≤ maxInt h t := by
  unfold maxInt
  induction t generalizing h with
  | nil => simp
  | cons a rest ih =>
    intro x hx
    simp only [List.foldl_cons]
    rcases List.mem_cons.mp hx with rfl | hx
    · exact le_trans (le_max_left x a) (ih (max x a) _ (List.mem_cons_self _ _))
    · rcases List.mem_cons.mp hx with rfl | hx
      · exact le_trans (le_max_right h x) (ih (max h x) _ (List.mem_cons_self _ _))
      · exact ih (max h a) x (List.mem_cons_of_mem _ hx)

/-- The episode set succeeds on id-typed tables. -/
theorem get_patient_episodes_ok {ts : Tables} {pid : Int}
    (hid : idTyped ts = true) :
    ∃ eps, get_patient_episodes ts pid = .ok eps := by
  rcases @episodesFold_ok ts pid hid ts (fun nt h => h) [] with ⟨out, hout⟩
  exact ⟨sortAsc (fun a b => decide (a ≤ b)) out, by
    unfold get_patient_episodes
    rw [hout]⟩

/-- The episode list is strictly ascending without duplicates. -/
theorem get_patient_episodes_sorted {ts : Tables} {pid : Int} {eps : List Int}
    (h : get_patient_episodes ts pid = .ok eps) :
    List.Pairwise (· < ·) eps := by
  unfold get_patient_episodes at h
  cases hout : episodesFold pid [] ts with
  | error e => rw [hout] at h; simp at h
  | ok out =>
    rw [hout] at h
    simp at h
    subst h
    have hnd : out.Nodup := by
      rcases (episodesFold_spec hout).2.2 with hnd | hnd
      · exact hnd
      · exact absurd List.nodup_nil hnd
    have hnd2 : (sortAsc (fun a b => decide (a ≤ b)) out).Nodup :=
      (perm_sortAsc _ out).nodup_iff.mpr hnd
    have hle : (sortAsc (fun a b => decide (a ≤ b)) out).Pairwise
        (fun x y => decide (x ≤ y) = true) :=
      pairwise_sortAsc _ (fun a b => by
          rcases Int.le_total a b with h | h
          · exact Or.inl (by simpa using h)
          · exact Or.inr (by simpa using h))
        (fun hab hbc => by
          simp only [decide_eq_true_eq] at *
          exact le_trans hab hbc) out
    have := hle.and hnd2
    exact this.imp (fun hp => lt_of_le_of_ne (by simpa using hp.1) hp.2)

/-- Every episode id carried by a patient row of a listed table with the
key columns lands in the episode list. -/
theorem get_patient_episodes_mem {ts : Tables} {pid : Int} {eps : List Int}
    (h : get_patient_episodes ts pid = .ok eps) {n : String} {t : Table}
    {r : Row} {k : Int} (hmem : (n, t) ∈ ts) (hr : r ∈ t.rows)
    (hpat : rowGet r "patient_id" = some (.vInt pid))
    (hpcol : "patient_id" ∈ t.cols) (hecol : "episode_id" ∈ t.cols)
    (hep : rowGet r "episode_id" = some (.vInt k)) : k ∈ eps := by
  unfold get_patient_episodes at h
  cases hout : episodesFold pid [] ts with
  | error e => rw [hout] at h; simp at h
  | ok out =>
    rw [hout] at h
    simp at h
    subst h
    rcases (episodesFold_spec hout).2.1 (n, t) hmem with ⟨ks, hks, hsub⟩
    have hkks : k ∈ ks := episodeIdsOfTable_mem hks hr hpat hpcol hecol hep
    exact (perm_sortAsc _ out).mem_iff.mpr (hsub k hkks)

/-- C10: get_latest_episode_id returns None exactly when the episode list
is empty; a returned id is a member of the strictly ascending duplicate-free
episode list. -/
theorem claim_C10_resolver_invariants (ts : Tables) (pid : Int) :
    (get_latest_episode_id ts pid = .ok none ↔
      get_patient_episodes ts pid = .ok []) ∧
    (∀ e : Int, get_latest_episode_id ts pid = .ok (some e) →
      ∃ eps, get_patient_episodes ts pid = .ok eps ∧ e ∈ eps ∧
        List.Pairwise (· < ·) eps) := by
  constructor
  · constructor
    · intro h
      unfold get_latest_episode_id at h
      cases heps : get_patient_episodes ts pid with
      | error e => rw [heps] at h; simp at h
      | ok eps =>
        rw [heps] at h
        by_cases hemp : eps.isEmpty
        · rw [List.isEmpty_iff.mp hemp]
        · simp only [hemp, Bool.false_eq_true, if_false] at h
          cases hsf : scanFold ts pid none DATE_PRIORITY with
          | error e => rw [hsf] at h; simp at h
          | ok best =>
            rw [hsf] at h
            cases best with
            | none =>
              cases eps with
              | nil => simp at hemp
              | cons h0 t0 => simp at h
            | some p =>
              obtain ⟨be, bd⟩ := p
              simp at h
    · intro h
      unfold get_latest_episode_id
      rw [h]
      rfl
  · intro e h
    unfold get_latest_episode_id at h
    cases heps : get_patient_episodes ts pid with
    | error e2 => rw [heps] at h; simp at h
    | ok eps =>
      rw [heps] at h
      refine ⟨eps, rfl, ?_, get_patient_episodes_sorted heps⟩
      by_cases hemp : eps.isEmpty
      · simp [hemp] at h
      · simp only [hemp, Bool.false_eq_true, if_false] at h
        cases hsf : scanFold ts pid none DATE_PRIORITY with
        | error e2 => rw [hsf] at h; simp at h
        | ok best =>
          rw [hsf] at h
          cases best with
          | none =>
            cases eps with
            | nil => simp at hemp
            | cons h0 t0 =>
              simp at h
              exact h ▸ maxInt_mem h0 t0
          | some p =>
            obtain ⟨be, bd⟩ := p
            simp at h
            subst h
            rcases scanFold_provenance hsf with hnone | ⟨nc, hnc, df, w, k, dt,
              hlk, hwpdf, hecol, hep, hout⟩
            · simp at hnone
            · injection hout with hout
              injection hout with h1 h2
              subst h1
              rcases filterByPatient_spec hwpdf with ⟨hwdf, hpat, hpcol⟩
              exact get_patient_episodes_mem heps (lookupTable_mem hlk) hwdf
                hpat hpcol hecol hep

/-- A successful conversion map converts every element. -/
theorem mapIntE_ok_exists {vs : List Value} {ks : List Int}
    (h : mapIntE vs = .ok ks) {v : Value} (hv : v ∈ vs) :
    ∃ k, toIntE v = .ok k := by
  induction vs generalizing ks with
  | nil => simp at hv
  | cons v0 rest ih =>
    simp only [mapIntE] at h
    cases hto : toIntE v0 with
    | error e => rw [hto] at h; simp at h
    | ok k0 =>
      rw [hto] at h
      cases hrest : mapIntE rest with
      | error e => rw [hrest] at h; simp at h
      | ok ks0 =>
        rcases List.mem_cons.mp hv with rfl | hv2
        · exact ⟨k0, hto⟩
        · exact ih hrest hv2

/-- Membership in the per-table dated pairs. -/
theorem mem_tablePairs {ts : Tables} {pid : Int} {nc : String × String}
    {p : Value × Value} :
    p ∈ tablePairs ts pid nc ↔
      ∃ r ∈ tableDatedRows ts pid nc, entryOf nc.2 r = some p := by
  unfold tablePairs
  rw [List.mem_filterMap]

/-- A dated row yields its entry. -/
theorem entryOf_of_mem_tableDatedRows {ts : Tables} {pid : Int}
    {nc : String × String} {r : Row} (h : r ∈ tableDatedRows ts pid nc) :
    ∃ d e, rowGet r nc.2 = some d ∧ rowGet r "episode_id" = some e ∧
      entryOf nc.2 r = some (d, e) := by
  unfold tableDatedRows at h
  cases hlk2 : lookupTable ts nc.1 with
  | none => rw [hlk2] at h; simp at h
  | some df =>
    rw [hlk2] at h
    have hpred := (List.mem_filter.mp h).2
    rw [Bool.and_eq_true] at hpred
    obtain ⟨hd, he⟩ := hpred
    rcases Option.isSome_iff_exists.mp hd with ⟨d, hd2⟩
    rcases Option.isSome_iff_exists.mp he with ⟨e, he2⟩
    exact ⟨d, e, hd2, he2, by simp [entryOf, hd2, he2]⟩

/-- A dated row lives in the looked-up table. -/
theorem mem_tableDatedRows {ts : Tables} {pid : Int} {nc : String × String}
    {r : Row} (h : r ∈ tableDatedRows ts pid nc) :
    ∃ df, lookupTable ts nc.1 = some df ∧ r ∈ df.rows ∧
      r ∈ (filterByPatient df pid).rows := by
  unfold tableDatedRows at h
  cases hlk : lookupTable ts nc.1 with
  | none => rw [hlk] at h; simp at h
  | some df =>
    rw [hlk] at h
    have hpdf : r ∈ (filterByPatient df pid).rows := List.mem_of_mem_filter h
    exact ⟨df, rfl, (filterByPatient_spec hpdf).1, hpdf⟩

/-- Membership in the dated pairs across the four tables. -/
theorem mem_datedPairs {ts : Tables} {pid : Int} {p : Value × Value} :
    p ∈ datedPairs ts pid ↔
      ∃ nc ∈ DATE_PRIORITY, p ∈ tablePairs ts pid nc := by
  unfold datedPairs
  rw [List.mem_flatten]
  constructor
  · rintro ⟨s, hs, hp⟩
    rcases List.mem_map.mp hs with ⟨nc, hnc, rfl⟩
    exact ⟨nc, hnc, hp⟩
  · rintro ⟨nc, hnc, hp⟩
    exact ⟨tablePairs ts pid nc, List.mem_map.mpr ⟨nc, hnc, rfl⟩, hp⟩

/-- The winner pair is one of the dated pairs of its table. -/
theorem winnerO_mem_tablePairs {ts : Tables} {pid : Int} {nc : String × String}
    {k : Int} {d : Value} (h : winnerO ts pid nc = some (k, d)) :
    (d, Value.vInt k) ∈ tablePairs ts pid nc := by
  rcases winnerO_spec h with ⟨w, hlm, hdw, hep⟩
  refine mem_tablePairs.mpr ⟨w, lastMaxR_mem _ hlm, ?_⟩
  simp [entryOf, hdw, hep]

/-- The winner pair bounds every dated pair of its table. -/
theorem winnerO_max {ts : Tables} {pid : Int} {nc : String × String}
    {k : Int} {d : Value} (h : winnerO ts pid nc = some (k, d)) :
    ∀ p ∈ tablePairs ts pid nc, valueLe p.1 d = true := by
  rcases winnerO_spec h with ⟨w, hlm, hdw, hep⟩
  intro p hp
  rcases mem_tablePairs.mp hp with ⟨r, hr, hre⟩
  rcases entryOf_of_mem_tableDatedRows hr with ⟨d2, e2, hd2, he2, hent⟩
  have hpd : p.1 = d2 := by
    rw [hre] at hent
    injection hent with hent
    rw [hent]
  have hle : leRowBy nc.2 r w = true :=
    lastMaxR_isMax (leRowBy nc.2) (leRowBy_total nc.2)
      (fun h1 h2 => leRowBy_trans h1 h2) hlm r hr
  unfold leRowBy at hle
  rw [hd2, hdw] at hle
  rw [hpd]
  exact hle

/-- A table with no dated rows contributes no winner. -/
theorem winnerO_none_of_empty {ts : Tables} {pid : Int} {nc : String × String}
    (h : tableDatedRows ts pid nc = []) : winnerO ts pid nc = none := by
  unfold winnerO
  rw [h]
  rfl

/-- tablePairs is empty exactly when the dated rows are. -/
theorem tablePairs_eq_nil_iff {ts : Tables} {pid : Int} {nc : String × String} :
    tablePairs ts pid nc = [] ↔ tableDatedRows ts pid nc = [] := by
  constructor
  · intro h
    cases hr : tableDatedRows ts pid nc with
    | nil => rfl
    | cons r rest =>
      exfalso
      have hrm : r ∈ tableDatedRows ts pid nc := by rw [hr]; exact List.mem_cons_self _ _
      rcases entryOf_of_mem_tableDatedRows hrm with ⟨d, e, _, _, hent⟩
      have : (d, e) ∈ tablePairs ts pid nc := mem_tablePairs.mpr ⟨r, hrm, hent⟩
      rw [h] at this
      simp at this
  · intro h
    unfold tablePairs
    rw [h]
    rfl

/-- In a well-formed table a present cell implies schema membership. -/
theorem col_mem_of_rowGet_some {t : Table} {r : Row} {c : String} {v : Value}
    (hwf : tableWF t = true) (hr : r ∈ t.rows) (h : rowGet r c = some v) :
    c ∈ t.cols := by
  by_contra hc
  rw [rowGet_none_of_notin hwf hr hc] at h
  simp at h

/-- In a date-typed dictionary the date cells of dated rows are datetimes. -/
theorem dateTyped_mem {ts : Tables} {nc : String × String} {t : Table}
    {r : Row} {v : Value} (hdate : dateTyped ts = true)
    (hnc : nc ∈ DATE_PRIORITY) (hlk : lookupTable ts nc.1 = some t)
    (hr : r ∈ t.rows) (hv : rowGet r nc.2 = some v) : ∃ d, v = .vDate d := by
  unfold dateTyped at hdate
  rw [List.all_eq_true] at hdate
  have h1 := hdate nc hnc
  rw [hlk] at h1
  rw [List.all_eq_true] at h1
  have h2 := h1 r hr
  rw [hv] at h2
  cases v with
  | vInt k => simp at h2
  | vStr s => simp at h2
  | vDate d => exact ⟨d, rfl⟩

/-- The episode list is nonempty whenever a dated pair exists, since the
winning episode of that pair is collected. -/
theorem eps_ne_nil_of_pair {ts : Tables} {pid : Int} {eps : List Int}
    (hwf : tablesWF ts = true)
    (heps : get_patient_episodes ts pid = .ok eps)
    {p : Value × Value} (hp : p ∈ datedPairs ts pid) : eps ≠ [] := by
  rcases mem_datedPairs.mp hp with ⟨nc, hnc, hpp⟩
  rcases mem_tablePairs.mp hpp with ⟨r, hr, hent⟩
  rcases entryOf_of_mem_tableDatedRows hr with ⟨d, e, hd, he, _⟩
  rcases mem_tableDatedRows hr with ⟨df, hlk, hrdf, hrpdf⟩
  rcases filterByPatient_spec hrpdf with ⟨_, hpat, hpcol⟩
  have hwfdf : tableWF df = true := tablesWF_mem hwf (lookupTable_mem hlk)
  have hecol : "episode_id" ∈ df.cols := col_mem_of_rowGet_some hwfdf hrdf he
  -- the episode value stored on a dated row that the fold accepted is an int
  unfold get_patient_episodes at heps
  cases hout : episodesFold pid [] ts with
  | error e2 => rw [hout] at heps; simp at heps
  | ok out =>
    rw [hout] at heps
    simp at heps
    rcases (episodesFold_spec hout).2.1 (nc.1, df) (lookupTable_mem hlk)
      with ⟨ks, hks, hsub⟩
    -- extract the integer behind the episode cell from the successful map
    unfold episodeIdsOfTable at hks
    have hne : df.rows.isEmpty = false := by
      cases ht : df.rows with
      | nil => rw [ht] at hrdf; simp at hrdf
      | cons a as => rfl
    rw [hne] at hks
    simp only [Bool.false_eq_true, if_false] at hks
    rw [if_neg (by simp [hpcol]), if_pos hecol] at hks
    have hvmem : e ∈ (df.rows.filter
        (fun r2 => rowGet r2 "patient_id" == some (.vInt pid))).filterMap
          (fun r2 => rowGet r2 "episode_id") := by
      refine List.mem_filterMap.mpr ⟨r, ?_, he⟩
      refine List.mem_filter.mpr ⟨hrdf, by simp [hpat]⟩
    cases e with
    | vInt k =>
      have hks2 : k ∈ ks := (mapIntE_mem hks k).mpr hvmem
      have : k ∈ eps := heps ▸ (perm_sortAsc _ out).mem_iff.mpr (hsub k hks2)
      intro hnil
      rw [hnil] at this
      simp at this
    | vStr s =>
      exfalso
      rcases mapIntE_ok_exists hks hvmem with ⟨k2, hk2⟩
      simp [toIntE] at hk2
    | vDate dd =>
      exfalso
      rcases mapIntE_ok_exists hks hvmem with ⟨k2, hk2⟩
      simp [toIntE] at hk2

/-- C1: for well-formed tables with loader-typed id and date columns, the
resolver returns None when no episode id exists; falls back to the maximal
episode id when no dated row exists; and otherwise returns the episode id
of a row holding the globally maximal date across the four date-priority
tables (restricted to the patient rows carrying both a date and an
episode id). -/
theorem claim_C1_latest_episode_global_max (ts : Tables) (pid : Int)
    (hwf : tablesWF ts = true) (hid : idTyped ts = true)
    (hdate : dateTyped ts = true) :
    (get_patient_episodes ts pid = .ok [] →
      get_latest_episode_id ts pid = .ok none) ∧
    (∀ eps, get_patient_episodes ts pid = .ok eps → eps ≠ [] →
      datedPairs ts pid = [] →
      ∃ m, get_latest_episode_id ts pid = .ok (some m) ∧ m ∈ eps ∧
        ∀ x ∈ eps, x ≤ m) ∧
    (datedPairs ts pid ≠ [] →
      ∃ d k, (Value.vDate d, Value.vInt k) ∈ datedPairs ts pid ∧
        (∀ d2 e2, (Value.vDate d2, e2) ∈ datedPairs ts pid → d2 ≤ d) ∧
        get_latest_episode_id ts pid = .ok (some k)) := by
  have hpairs_ne : ∀ nc ∈ DATE_PRIORITY, tablePairs ts pid nc ≠ [] →
      datedPairs ts pid ≠ [] := by
    intro nc hnc hne hdp
    cases htp : tablePairs ts pid nc with
    | nil => exact hne htp
    | cons p rest =>
      have : p ∈ datedPairs ts pid :=
        mem_datedPairs.mpr ⟨nc, hnc, by rw [htp]; exact List.mem_cons_self _ _⟩
      rw [hdp] at this
      simp at this
  refine ⟨?_, ?_, ?_⟩
  · intro h
    unfold get_latest_episode_id
    rw [h]
    rfl
  · intro eps heps hne hdp
    have hwinners : ∀ nc ∈ DATE_PRIORITY, winnerO ts pid nc = none := by
      intro nc hnc
      refine winnerO_none_of_empty (tablePairs_eq_nil_iff.mp ?_)
      cases htp : tablePairs ts pid nc with
      | nil => rfl
      | cons p rest => exact absurd hdp (hpairs_ne nc hnc (by rw [htp]; simp))
    have hfold : (DATE_PRIORITY.map (winnerO ts pid)).foldl combineO none = none := by
      refine (foldl_combineO_none _ none).mpr ⟨rfl, ?_⟩
      intro o ho
      rcases List.mem_map.mp ho with ⟨nc, hnc, rfl⟩
      exact hwinners nc hnc
    obtain ⟨h0, t0, rfl⟩ : ∃ a l, eps = a :: l := by
      cases eps with
      | nil => exact absurd rfl hne
      | cons a l => exact ⟨a, l, rfl⟩
    refine ⟨maxInt h0 t0, ?_, maxInt_mem h0 t0, maxInt_le h0 t0⟩
    simp [get_latest_episode_id, heps,
      scanFold_eq ts pid hwf hid DATE_PRIORITY none, hfold]
  · intro hne
    rcases List.exists_mem_of_ne_nil _ hne with ⟨p0, hp0⟩
    rcases mem_datedPairs.mp hp0 with ⟨nc0, hnc0, hp0t⟩
    rcases @get_patient_episodes_ok ts pid hid with ⟨eps, heps⟩
    have hepsne : eps ≠ [] := eps_ne_nil_of_pair hwf heps hp0
    have hrows0 : tableDatedRows ts pid nc0 ≠ [] := by
      intro h0
      rw [tablePairs_eq_nil_iff.mpr h0] at hp0t
      simp at hp0t
    rcases winnerO_some_of_ne hid hrows0 with ⟨k0, d0, hw0⟩
    cases hfold : (DATE_PRIORITY.map (winnerO ts pid)).foldl combineO none with
    | none =>
      exfalso
      have := ((foldl_combineO_none _ none).mp hfold).2 (winnerO ts pid nc0)
        (List.mem_map.mpr ⟨nc0, hnc0, rfl⟩)
      rw [hw0] at this
      simp at this
    | some p =>
      obtain ⟨kk, dd⟩ := p
      rcases foldl_combineO_some _ none (kk, dd) hfold with ⟨hmem, hmax⟩
      rcases hmem with hmem | hmem
      · simp at hmem
      · rcases List.mem_map.mp hmem with ⟨ncs, hncs, hws⟩
        have hpair : (dd, Value.vInt kk) ∈ tablePairs ts pid ncs :=
          winnerO_mem_tablePairs hws
        rcases winnerO_spec hws with ⟨w, hlm, hdw, hepw⟩
        rcases mem_tableDatedRows (lastMaxR_mem _ hlm) with ⟨df, hlk, hwdf, _⟩
        rcases dateTyped_mem hdate hncs hlk hwdf hdw with ⟨dN, rfl⟩
        refine ⟨dN, kk, mem_datedPairs.mpr ⟨ncs, hncs, hpair⟩, ?_, ?_⟩
        · intro d2 e2 hmem2
          rcases mem_datedPairs.mp hmem2 with ⟨nc2, hnc2, hp2⟩
          have hrows2 : tableDatedRows ts pid nc2 ≠ [] := by
            intro h0
            rw [tablePairs_eq_nil_iff.mpr h0] at hp2
            simp at hp2
          rcases winnerO_some_of_ne hid hrows2 with ⟨k2, dv2, hw2⟩
          have h1 : valueLe (Value.vDate d2) dv2 = true :=
            winnerO_max hw2 (Value.vDate d2, e2) hp2
          have h2 : valueLe dv2 (Value.vDate dN) = true :=
            hmax (k2, dv2) (Or.inr (List.mem_map.mpr ⟨nc2, hnc2, hw2⟩))
          have := valueLe_trans h1 h2
          simpa [valueLe] using this
        · obtain ⟨e0, eps0, rfl⟩ : ∃ a l, eps = a :: l := by
            cases eps with
            | nil => exact absurd rfl hepsne
            | cons a l => exact ⟨a, l, rfl⟩
          simp [get_latest_episode_id, heps,
            scanFold_eq ts pid hwf hid DATE_PRIORITY none, hfold]

/-- Auxiliary split of the combineO fold started from a chosen best. -/
theorem foldl_combineO_split_aux :
    ∀ (l : List (Option (Int × Value))) (b p : Int × Value),
      l.foldl combineO (some b) = some p →
      (b = p ∧ ∀ q : Int × Value, some q ∈ l → valueLt p.2 q.2 = false) ∨
      (valueLt b.2 p.2 = true ∧ ∃ l₁ l₂, l = l₁ ++ some p :: l₂ ∧
        (∀ q : Int × Value, some q ∈ l₁ → valueLt q.2 p.2 = true) ∧
        (∀ q : Int × Value, some q ∈ l₂ → valueLt p.2 q.2 = false)) := by
  intro l
  induction l with
  | nil =>
    intro b p h
    simp at h
    exact Or.inl ⟨h, by simp⟩
  | cons o rest ih =>
    intro b p h
    simp only [List.foldl_cons] at h
    cases o with
    | none =>
      have hco : combineO (some b) none = some b := rfl
      rw [hco] at h
      rcases ih b p h with ⟨rfl, hno⟩ | ⟨hlt, l₁, l₂, heq, h₁, h₂⟩
      · exact Or.inl ⟨rfl, by
          intro q hq
          rcases List.mem_cons.mp hq with hq | hq
          · simp at hq
          · exact hno q hq⟩
      · exact Or.inr ⟨hlt, none :: l₁, l₂, by simp [heq], by
          intro q hq
          rcases List.mem_cons.mp hq with hq | hq
          · simp at hq
          · exact h₁ q hq, h₂⟩
    | some c =>
      by_cases hbc : valueLt b.2 c.2 = true
      · have hco : combineO (some b) (some c) = some c := by simp [combineO, hbc]
        rw [hco] at h
        rcases ih c p h with ⟨rfl, hno⟩ | ⟨hlt, l₁, l₂, heq, h₁, h₂⟩
        · exact Or.inr ⟨hbc, [], rest, rfl, by simp, hno⟩
        · exact Or.inr ⟨valueLt_trans hbc hlt, some c :: l₁, l₂, by simp [heq], by
            intro q hq
            rcases List.mem_cons.mp hq with hq | hq
            · injection hq with hq
              rw [← hq] at hlt
              exact hlt
            · exact h₁ q hq, h₂⟩
      · have hco : combineO (some b) (some c) = some b := by
          simp [combineO, Bool.eq_false_iff.mpr hbc]
        rw [hco] at h
        rcases ih b p h with ⟨rfl, hno⟩ | ⟨hlt, l₁, l₂, heq, h₁, h₂⟩
        · refine Or.inl ⟨rfl, ?_⟩
          intro q hq
          rcases List.mem_cons.mp hq with hq | hq
          · injection hq with hq
            rw [hq]
            exact Bool.eq_false_iff.mpr hbc
          · exact hno q hq
        · refine Or.inr ⟨hlt, some c :: l₁, l₂, by simp [heq], ?_, h₂⟩
          intro q hq
          rcases List.mem_cons.mp hq with hq | hq
          · injection hq with hq
            rw [hq]
            exact valueLt_of_le_of_lt (valueLe_of_not_valueLt
              (Bool.eq_false_iff.mpr hbc)) hlt
          · exact h₁ q hq

/-- The combineO fold from none picks the first option attaining the
maximum date: everything before it is strictly below, nothing after it is
strictly above. -/
theorem foldl_combineO_split :
    ∀ (l : List (Option (Int × Value))) (p : Int × Value),
      l.foldl combineO none = some p →
      ∃ l₁ l₂, l = l₁ ++ some p :: l₂ ∧
        (∀ q : Int × Value, some q ∈ l₁ → valueLt q.2 p.2 = true) ∧
        (∀ q : Int × Value, some q ∈ l₂ → valueLt p.2 q.2 = false) := by
  intro l
  induction l with
  | nil => intro p h; simp at h
  | cons o rest ih =>
    intro p h
    simp only [List.foldl_cons] at h
    cases o with
    | none =>
      have hco : combineO none none = none := rfl
      rw [hco] at h
      rcases ih p h with ⟨l₁, l₂, heq, h₁, h₂⟩
      exact ⟨none :: l₁, l₂, by simp [heq], by
        intro q hq
        rcases List.mem_cons.mp hq with hq | hq
        · simp at hq
        · exact h₁ q hq, h₂⟩
    | some c =>
      have hco : combineO none (some c) = some c := rfl
      rw [hco] at h
      rcases foldl_combineO_split_aux rest c p h with ⟨rfl, hno⟩ | ⟨hlt, l₁, l₂, heq, h₁, h₂⟩
      · exact ⟨[], rest, rfl, by simp, hno⟩
      · exact ⟨some c :: l₁, l₂, by simp [heq], by
          intro q hq
          rcases List.mem_cons.mp hq with hq | hq
          · injection hq with hq
            rw [← hq] at hlt
            exact hlt
          · exact h₁ q hq, h₂⟩

/-- C3 counterexample: two vitals rows of the same patient tie on the
maximal date with episode ids 1 then 2 in stored order; the code returns
episode 2, while the first stored row holding the maximal date carries
episode 1, refuting the claimed first-row tie-break. -/
theorem claim_C3_counterexample :
    get_latest_episode_id
      [("vitals", ⟨["patient_id", "episode_id", "visit_date"],
        [[("patient_id", some (.vInt 1)), ("episode_id", some (.vInt 1)),
          ("visit_date", some (.vDate 10))],
         [("patient_id", some (.vInt 1)), ("episode_id", some (.vInt 2)),
          ("visit_date", some (.vDate 10))]]⟩)] 1 = .ok (some 2) ∧
    ((firstMaxR (leRowBy "visit_date")
      (tableDatedRows
        [("vitals", ⟨["patient_id", "episode_id", "visit_date"],
          [[("patient_id", some (.vInt 1)), ("episode_id", some (.vInt 1)),
            ("visit_date", some (.vDate 10))],
           [("patient_id", some (.vInt 1)), ("episode_id", some (.vInt 2)),
            ("visit_date", some (.vDate 10))]]⟩)] 1
        ("vitals", "visit_date"))).bind
      (fun r => rowGet r "episode_id")) = some (.vInt 1) ∧
    (2 : Int) ≠ 1 := by
  refine ⟨rfl, rfl, by decide⟩

/-- C3 amended: the cross-table tie-break follows the fixed priority-list
order (an earlier table keeps a tied maximum), but within one table the
chosen row is the LAST stored row attaining the maximal date, because the
descending pandas sort reverses a stable ascending one. -/
theorem claim_C3_amended (ts : Tables) (pid : Int)
    (hwf : tablesWF ts = true) (hid : idTyped ts = true) :
    (∀ (k : Int) (d : Value), specBest ts pid = some (k, d) →
      get_latest_episode_id ts pid = .ok (some k)) ∧
    (∀ nc ∈ DATE_PRIORITY, ∀ (k : Int) (d : Value),
      winnerO ts pid nc = some (k, d) →
      ∃ w l₁ l₂, tableDatedRows ts pid nc = l₁ ++ w :: l₂ ∧
        rowGet w "episode_id" = some (.vInt k) ∧ rowGet w nc.2 = some d ∧
        (∀ x ∈ tableDatedRows ts pid nc, leRowBy nc.2 x w = true) ∧
        (∀ x ∈ l₂, leRowBy nc.2 w x = false)) ∧
    (∀ p : Int × Value, specBest ts pid = some p →
      ∃ l₁ l₂, DATE_PRIORITY.map (winnerO ts pid) = l₁ ++ some p :: l₂ ∧
        (∀ q : Int × Value, some q ∈ l₁ → valueLt q.2 p.2 = true) ∧
        (∀ q : Int × Value, some q ∈ l₂ → valueLt p.2 q.2 = false)) := by
  refine ⟨?_, ?_, ?_⟩
  · intro k d hsb
    unfold specBest at hsb
    rcases foldl_combineO_some _ none (k, d) hsb with ⟨hmem, _⟩
    rcases hmem with hmem | hmem
    · simp at hmem
    · rcases List.mem_map.mp hmem with ⟨ncs, hncs, hws⟩
      rcases winnerO_spec hws with ⟨w, hlm, hdw, hepw⟩
      rcases mem_tableDatedRows (lastMaxR_mem _ hlm) with ⟨df, hlk, hwdf, hwpdf⟩
      rcases filterByPatient_spec hwpdf with ⟨_, hpat, hpcol⟩
      have hwfdf : tableWF df = true := tablesWF_mem hwf (lookupTable_mem hlk)
      have hecol : "episode_id" ∈ df.cols := col_mem_of_rowGet_some hwfdf hwdf hepw
      rcases @get_patient_episodes_ok ts pid hid with ⟨eps, heps⟩
      have hkmem : k ∈ eps := get_patient_episodes_mem heps (lookupTable_mem hlk)
        hwdf hpat hpcol hecol hepw
      obtain ⟨e0, eps0, rfl⟩ : ∃ a l, eps = a :: l := by
        cases eps with
        | nil => simp at hkmem
        | cons a l => exact ⟨a, l, rfl⟩
      simp [get_latest_episode_id, heps,
        scanFold_eq ts pid hwf hid DATE_PRIORITY none, hsb]
  · intro nc _ k d hw
    rcases winnerO_spec hw with ⟨w, hlm, hdw, hepw⟩
    rcases lastMaxR_split (leRowBy nc.2) (leRowBy_total nc.2)
      (fun h1 h2 => leRowBy_trans h1 h2) hlm with ⟨l₁, l₂, heq, h₂⟩
    refine ⟨w, l₁, l₂, heq, hepw, hdw, ?_, fun x hx => (h₂ x hx).2⟩
    exact lastMaxR_isMax (leRowBy nc.2) (leRowBy_total nc.2)
      (fun h1 h2 => leRowBy_trans h1 h2) hlm
  · intro p hsb
    unfold specBest at hsb
    exact foldl_combineO_split _ p hsb

/-- C1 witness: the resolver claim instantiated on a one-row vitals table. -/
theorem claim_C1_witness :
    ∃ d k, (Value.vDate d, Value.vInt k) ∈ datedPairs
        [("vitals", ⟨["patient_id", "episode_id", "visit_date"],
          [[("patient_id", some (.vInt 1)), ("episode_id", some (.vInt 7)),
            ("visit_date", some (.vDate 5))]]⟩)] 1 ∧
      (∀ d2 e2, (Value.vDate d2, e2) ∈ datedPairs
        [("vitals", ⟨["patient_id", "episode_id", "visit_date"],
          [[("patient_id", some (.vInt 1)), ("episode_id", some (.vInt 7)),
            ("visit_date", some (.vDate 5))]]⟩)] 1 → d2 ≤ d) ∧
      get_latest_episode_id
        [("vitals", ⟨["patient_id", "episode_id", "visit_date"],
          [[("patient_id", some (.vInt 1)), ("episode_id", some (.vInt 7)),
            ("visit_date", some (.vDate 5))]]⟩)] 1 = .ok (some 7) := by
  obtain ⟨d, k, hmem, hmax, hres⟩ :=
    (claim_C1_latest_episode_global_max
      [("vitals", ⟨["patient_id", "episode_id", "visit_date"],
        [[("patient_id", some (.vInt 1)), ("episode_id", some (.vInt 7)),
          ("visit_date", some (.vDate 5))]]⟩)] 1
      (by decide) (by decide) (by decide)).2.2 (by decide)
  have hlist : datedPairs
      [("vitals", ⟨["patient_id", "episode_id", "visit_date"],
        [[("patient_id", some (.vInt 1)), ("episode_id", some (.vInt 7)),
          ("visit_date", some (.vDate 5))]]⟩)] 1 =
      [(Value.vDate 5, Value.vInt 7)] := rfl
  rw [hlist] at hmem
  simp at hmem
  obtain ⟨rfl, rfl⟩ := hmem
  exact ⟨5, 7, by rw [hlist]; simp, hmax, hres⟩

/-- C3 witness: the amended tie-break claim instantiated on the tied
two-row vitals table, where the last stored tied row carries episode 2. -/
theorem claim_C3_amended_witness :
    get_latest_episode_id
      [("vitals", ⟨["patient_id", "episode_id", "visit_date"],
        [[("patient_id", some (.vInt 1)), ("episode_id", some (.vInt 1)),
          ("visit_date", some (.vDate 10))],
         [("patient_id", some (.vInt 1)), ("episode_id", some (.vInt 2)),
          ("visit_date", some (.vDate 10))]]⟩)] 1 = .ok (some 2) :=
  (claim_C3_amended
    [("vitals", ⟨["patient_id", "episode_id", "visit_date"],
      [[("patient_id", some (.vInt 1)), ("episode_id", some (.vInt 1)),
        ("visit_date", some (.vDate 10))],
       [("patient_id", some (.vInt 1)), ("episode_id", some (.vInt 2)),
        ("visit_date", some (.vDate 10))]]⟩)] 1
    (by decide) (by decide)).1 2 (Value.vDate 10) (by decide)

/-- C10 witness: the invariants instantiated on a two-table dictionary. -/
theorem claim_C10_witness :
    ∃ eps, get_patient_episodes
        [("medications", ⟨["patient_id", "episode_id"],
          [[("patient_id", some (.vInt 4)), ("episode_id", some (.vInt 3))]]⟩),
         ("notes", ⟨["patient_id", "episode_id", "note_date"],
          [[("patient_id", some (.vInt 4)), ("episode_id", some (.vInt 9)),
            ("note_date", some (.vDate 2))]]⟩)] 4 = .ok eps ∧
      (9 : Int) ∈ eps ∧ List.Pairwise (· < ·) eps :=
  (claim_C10_resolver_invariants
    [("medications", ⟨["patient_id", "episode_id"],
      [[("patient_id", some (.vInt 4)), ("episode_id", some (.vInt 3))]]⟩),
     ("notes", ⟨["patient_id", "episode_id", "note_date"],
      [[("patient_id", some (.vInt 4)), ("episode_id", some (.vInt 9)),
        ("note_date", some (.vDate 2))]]⟩)] 4).2 9 rfl

/-- C4: episode filtering preserves the schema and never raises (it is a
total function); with the key column present it keeps exactly the rows
whose episode id equals the requested id, so null-episode rows are dropped;
with the key column absent it returns the empty table of the same schema;
and in the episode bundle a table lacking the column passes through the
patient-filtered view unchanged. -/
theorem claim_C4_episode_filter (t : Table) (e : Int) (ts : Tables) (pid : Int) :
    ((filter_by_episode t (some e)).cols = t.cols) ∧
    ("episode_id" ∈ t.cols →
      (filter_by_episode t (some e)).rows =
        t.rows.filter (fun r => rowGet r "episode_id" == some (.vInt e)) ∧
      ∀ r ∈ (filter_by_episode t (some e)).rows,
        rowGet r "episode_id" = some (.vInt e)) ∧
    ("episode_id" ∉ t.cols → (filter_by_episode t (some e)).rows = []) ∧
    (∀ b : Tables, get_episode_bundle ts pid (some e) = .ok b →
      ∀ p ∈ b, ∃ t0 : Table,
        (p.1, t0) ∈ ts.map (fun nt => (nt.1, filterByPatient nt.2 pid)) ∧
        (t0.rows = [] → p.2 = t0) ∧
        (t0.rows ≠ [] → "episode_id" ∈ t0.cols →
          p.2 = filter_by_episode t0 (some e)) ∧
        (t0.rows ≠ [] → "episode_id" ∉ t0.cols → p.2 = t0)) := by
  refine ⟨?_, ?_, ?_, ?_⟩
  · unfold filter_by_episode
    split
    · rfl
    · split <;> rfl
  · intro hcol
    constructor
    · unfold filter_by_episode
      by_cases hemp : t.rows.isEmpty
      · simp [List.isEmpty_iff.mp hemp]
      · simp only [hemp, Bool.false_eq_true, if_false, if_pos hcol]
        rfl
    · intro r hr
      unfold filter_by_episode at hr
      by_cases hemp : t.rows.isEmpty
      · rw [List.isEmpty_iff.mp hemp] at hr
        simp [hemp] at hr
        rw [List.isEmpty_iff.mp hemp] at hr
        simp at hr
      · simp only [hemp, Bool.false_eq_true, if_false, if_pos hcol] at hr
        have := (List.mem_filter.mp hr).2
        unfold cellEqInt at this
        simpa using this
  · intro hcol
    unfold filter_by_episode
    by_cases hemp : t.rows.isEmpty
    · rw [List.isEmpty_iff.mp hemp]
      simp
      rw [List.isEmpty_iff.mp hemp]
    · simp only [hemp, Bool.false_eq_true, if_false, if_neg hcol]
  · intro b hb p hp
    unfold get_episode_bundle at hb
    cases hbu : get_patient_bundle ts pid with
    | error e2 => rw [hbu] at hb; simp at hb
    | ok bu =>
      rw [hbu] at hb
      simp at hb
      have hdata : bu.data = ts.map (fun nt => (nt.1, filterByPatient nt.2 pid)) := by
        unfold get_patient_bundle at hbu
        cases h1 : get_patient_episodes ts pid with
        | error e2 => rw [h1] at hbu; simp at hbu
        | ok eps =>
          rw [h1] at hbu
          cases h2 : get_latest_episode_id ts pid with
          | error e2 => rw [h2] at hbu; simp at hbu
          | ok latest =>
            rw [h2] at hbu
            simp at hbu
            rw [← hbu]
      rw [← hb] at hp
      rcases List.mem_map.mp hp with ⟨nt, hnt, hfnt⟩
      refine ⟨nt.2, ?_, ?_, ?_, ?_⟩
      · rw [hdata] at hnt
        rcases List.mem_map.mp hnt with ⟨nt0, hnt0, hfnt0⟩
        have hfst : p.1 = nt.1 := by rw [← hfnt]
        rw [hfst, ← hfnt0]
        exact List.mem_map.mpr ⟨nt0, hnt0, rfl⟩
      · intro hrows
        rw [← hfnt]
        simp [hrows]
      · intro hrows hcol
        rw [← hfnt]
        simp [hrows, hcol]
      · intro hrows hcol
        rw [← hfnt]
        simp [hrows, hcol]

/-- C4 witness: the filter equality instantiated on a three-row table with
a matching, a null and a mismatched episode cell. -/
theorem claim_C4_witness :
    (filter_by_episode ⟨["episode_id"],
      [[("episode_id", some (.vInt 5))], [("episode_id", none)],
       [("episode_id", some (.vInt 6))]]⟩ (some 5)).rows =
      List.filter (fun r => rowGet r "episode_id" == some (.vInt 5))
        [[("episode_id", some (.vInt 5))], [("episode_id", none)],
         [("episode_id", some (.vInt 6))]] :=
  ((claim_C4_episode_filter ⟨["episode_id"],
      [[("episode_id", some (.vInt 5))], [("episode_id", none)],
       [("episode_id", some (.vInt 6))]]⟩ 5 [] 0).2.1 (by decide)).1

/-- medsDedup output is a subsequence of its input. -/
theorem medsDedup_sublist : ∀ (seen l : List Med),
    List.Sublist (medsDedup seen l) l := by
  intro seen l
  induction l generalizing seen with
  | nil => simp [medsDedup]
  | cons m ms ih =>
    unfold medsDedup
    split
    · exact List.Sublist.cons₂ m (ih (m :: seen))
    · exact List.Sublist.cons m (ih seen)

/-- medsDedup emits no element of the seen set and no duplicates. -/
theorem medsDedup_nodup : ∀ (seen l : List Med),
    (medsDedup seen l).Nodup ∧ ∀ m ∈ medsDedup seen l, m ∉ seen := by
  intro seen l
  induction l generalizing seen with
  | nil => simp [medsDedup]
  | cons m ms ih =>
    unfold medsDedup
    split
    · rename_i hc
      rcases ih (m :: seen) with ⟨hnd, hns⟩
      refine ⟨List.nodup_cons.mpr ⟨?_, hnd⟩, ?_⟩
      · intro hm
        exact hns m hm (List.mem_cons_self _ _)
      · intro x hx
        rcases List.mem_cons.mp hx with rfl | hx
        · exact hc.1
        · exact fun hxs => hns x hx (List.mem_cons_of_mem _ hxs)
    · exact ih seen

/-- medsDedup emits only records with a nonempty name. -/
theorem medsDedup_names : ∀ (seen l : List Med),
    ∀ m ∈ medsDedup seen l, m.name ≠ "" := by
  intro seen l
  induction l generalizing seen with
  | nil => simp [medsDedup]
  | cons m ms ih =>
    unfold medsDedup
    split
    · rename_i hc
      intro x hx
      rcases List.mem_cons.mp hx with rfl | hx
      · exact hc.2
      · exact ih (m :: seen) x hx
    · exact ih seen

/-- medsDedup keeps every unseen record with a nonempty name. -/
theorem medsDedup_complete : ∀ (seen l : List Med) (m : Med),
    m ∈ l → m.name ≠ "" → m ∉ seen → m ∈ medsDedup seen l := by
  intro seen l
  induction l generalizing seen with
  | nil => simp
  | cons m0 ms ih =>
    intro m hm hname hseen
    unfold medsDedup
    split
    · rename_i hc
      by_cases heq : m = m0
      · rw [heq]; exact List.mem_cons_self _ _
      · rcases List.mem_cons.mp hm with rfl | hm2
        · exact absurd rfl heq
        · refine List.mem_cons_of_mem _ (ih (m0 :: seen) m hm2 hname ?_)
          intro hx
          rcases List.mem_cons.mp hx with h | h
          · exact heq h
          · exact hseen h
    · rename_i hc
      rcases List.mem_cons.mp hm with rfl | hm2
      · exact absurd ⟨hseen, hname⟩ hc
      · exact ih seen m hm2 hname hseen

/-- dedupF output is a subsequence of its input. -/
theorem dedupF_sublist {α : Type} [DecidableEq α] : ∀ (seen l : List α),
    List.Sublist (dedupF seen l) l := by
  intro seen l
  induction l generalizing seen with
  | nil => simp [dedupF]
  | cons x xs ih =>
    unfold dedupF
    split
    · exact List.Sublist.cons x (ih seen)
    · exact List.Sublist.cons₂ x (ih (x :: seen))

/-- dedupF emits no seen element and no duplicates. -/
theorem dedupF_nodup {α : Type} [DecidableEq α] : ∀ (seen l : List α),
    (dedupF seen l).Nodup ∧ ∀ x ∈ dedupF seen l, x ∉ seen := by
  intro seen l
  induction l generalizing seen with
  | nil => simp [dedupF]
  | cons x xs ih =>
    unfold dedupF
    split
    · rcases ih seen with ⟨hnd, hns⟩
      exact ⟨hnd, hns⟩
    · rename_i hc
      rcases ih (x :: seen) with ⟨hnd, hns⟩
      refine ⟨List.nodup_cons.mpr ⟨?_, hnd⟩, ?_⟩
      · intro hm
        exact hns x hm (List.mem_cons_self _ _)
      · intro y hy
        rcases List.mem_cons.mp hy with rfl | hy
        · exact hc
        · exact fun hys => hns y hy (List.mem_cons_of_mem _ hys)

/-- dedupF keeps every unseen element. -/
theorem dedupF_complete {α : Type} [DecidableEq α] : ∀ (seen l : List α) (x : α),
    x ∈ l → x ∉ seen → x ∈ dedupF seen l := by
  intro seen l
  induction l generalizing seen with
  | nil => simp
  | cons x0 xs ih =>
    intro x hx hseen
    unfold dedupF
    split
    · rename_i hc
      rcases List.mem_cons.mp hx with rfl | hx2
      · exact absurd hc hseen
      · exact ih seen x hx2 hseen
    · rename_i hc
      by_cases heq : x = x0
      · rw [heq]; exact List.mem_cons_self _ _
      · rcases List.mem_cons.mp hx with rfl | hx2
        · exact absurd rfl heq
        · refine List.mem_cons_of_mem _ (ih (x0 :: seen) x hx2 ?_)
          intro hm
          rcases List.mem_cons.mp hm with h | h
          · exact heq h
          · exact hseen h

/-- C7: the medications summarizer never emits two records with identical
(name, frequency, classification, reason) tuples, drops every record with
an empty name, and preserves first-occurrence order (its output is a
subsequence of the per-row records containing every nonempty-name record);
the diagnoses summarizer never emits two identical strings and likewise
preserves first-occurrence order. -/
theorem claim_C7_dedup (t1 t2 : Table) :
    (summarize_medications t1).Nodup ∧
    (∀ m ∈ summarize_medications t1, m.name ≠ "") ∧
    List.Sublist (summarize_medications t1) (t1.rows.map medOfRow) ∧
    (∀ m ∈ t1.rows.map medOfRow, m.name ≠ "" → m ∈ summarize_medications t1) ∧
    (summarize_diagnoses t2).Nodup ∧
    List.Sublist (summarize_diagnoses t2) (diagStrings t2) ∧
    (∀ s ∈ diagStrings t2, s ∈ summarize_diagnoses t2) := by
  have hmeds : summarize_medications t1 = medsDedup [] (t1.rows.map medOfRow) := by
    unfold summarize_medications
    by_cases hemp : t1.rows.isEmpty
    · rw [List.isEmpty_iff.mp hemp]
      simp [medsDedup]
    · simp [hemp]
  have hdx : summarize_diagnoses t2 = dedupF [] (diagStrings t2) := by
    unfold summarize_diagnoses
    by_cases hemp : t2.rows.isEmpty
    · rw [if_pos hemp]
      unfold diagStrings
      rw [List.isEmpty_iff.mp hemp]
      simp [dedupF]
    · simp [hemp]
  rw [hmeds, hdx]
  refine ⟨(medsDedup_nodup [] _).1, medsDedup_names [] _, medsDedup_sublist [] _,
    ?_, (dedupF_nodup [] _).1, dedupF_sublist [] _, ?_⟩
  · intro m hm hname
    exact medsDedup_complete [] _ m hm hname (by simp)
  · intro s hs
    exact dedupF_complete [] _ s hs (by simp)

/-- C7 witness: a duplicated medications row with one blank-name row is
emitted once, and dropped when blank. -/
theorem claim_C7_witness :
    (⟨"aspirin", "qd", "nsaid", "pain"⟩ : Med) ∈ summarize_medications
      ⟨["medication_name", "frequency", "classification", "reason"],
       [[("medication_name", some (.vStr "aspirin")), ("frequency", some (.vStr "qd")),
         ("classification", some (.vStr "nsaid")), ("reason", some (.vStr "pain"))],
        [("medication_name", some (.vStr "aspirin")), ("frequency", some (.vStr "qd")),
         ("classification", some (.vStr "nsaid")), ("reason", some (.vStr "pain"))],
        [("medication_name", none), ("frequency", some (.vStr "qd")),
         ("classification", some (.vStr "x")), ("reason", some (.vStr "y"))]]⟩ :=
  (claim_C7_dedup
    ⟨["medication_name", "frequency", "classification", "reason"],
     [[("medication_name", some (.vStr "aspirin")), ("frequency", some (.vStr "qd")),
       ("classification", some (.vStr "nsaid")), ("reason", some (.vStr "pain"))],
      [("medication_name", some (.vStr "aspirin")), ("frequency", some (.vStr "qd")),
       ("classification", some (.vStr "nsaid")), ("reason", some (.vStr "pain"))],
      [("medication_name", none), ("frequency", some (.vStr "qd")),
       ("classification", some (.vStr "x")), ("reason", some (.vStr "y"))]]⟩
    ⟨[], []⟩).2.2.2.1 ⟨"aspirin", "qd", "nsaid", "pain"⟩ (by decide) (by decide)

/-- On rows whose date cells are all present, the descending sort is
descending-pairwise. -/
theorem pairwise_sortDescRows (dcol : String) (rows : List Row)
    (hall : ∀ r ∈ rows, (rowGet r dcol).isSome = true) :
    (sortDescRows dcol rows).Pairwise (fun a b => leRowBy dcol b a = true) := by
  unfold sortDescRows
  rw [List.partition_eq_filter_filter]
  simp only [Function.comp_def]
  have h1 : rows.filter (fun r => (rowGet r dcol).isSome) = rows :=
    List.filter_eq_self.mpr hall
  have h2 : rows.filter (fun r => !(rowGet r dcol).isSome) = [] := by
    rw [List.filter_eq_nil_iff]
    intro r hr
    simp [hall r hr]
  rw [h1, h2, List.append_nil]
  rw [List.pairwise_reverse]
  exact pairwise_sortAsc (leRowBy dcol) (leRowBy_total dcol)
    (fun ha hb => leRowBy_trans ha hb) rows

/-- C8 counterexample: a one-character note text with a leading space is
at most 300 characters long, yet the emitted snippet is the stripped text,
not the note text unchanged. -/
theorem claim_C8_counterexample :
    (summarize_notes ⟨["note_date", "note_text"],
      [[("note_date", some (.vDate 1)), ("note_text", some (.vStr " x"))]]⟩ 3).map
        (fun n => n.snippet) = ["x"] ∧
    ("x" : String) ≠ " x" ∧ (" x" : String).length ≤ 300 := by
  refine ⟨rfl, by decide, by decide⟩

/-- C8 amended: the notes summarizer selects the 3 most recent dated notes
(every selected row's date is at least every unselected dated row's date),
and each snippet is the whitespace-STRIPPED note text unchanged when that
stripped text has at most 300 characters, else exactly its first 300
characters followed by the ellipsis marker. -/
theorem claim_C8_amended (t : Table) (hcol : "note_date" ∈ t.cols) :
    List.Perm
      ((sortDescRows "note_date"
        (t.rows.filter (fun r => (rowGet r "note_date").isSome))).take 3 ++
       (sortDescRows "note_date"
        (t.rows.filter (fun r => (rowGet r "note_date").isSome))).drop 3)
      (t.rows.filter (fun r => (rowGet r "note_date").isSome)) ∧
    (∀ s ∈ (sortDescRows "note_date"
        (t.rows.filter (fun r => (rowGet r "note_date").isSome))).take 3,
      ∀ u ∈ (sortDescRows "note_date"
        (t.rows.filter (fun r => (rowGet r "note_date").isSome))).drop 3,
        leRowBy "note_date" u s = true) ∧
    summarize_notes t 3 =
      ((sortDescRows "note_date"
        (t.rows.filter (fun r => (rowGet r "note_date").isSome))).take 3).map
          noteOfRow ∧
    (summarize_notes t 3).length =
      min 3 (t.rows.filter (fun r => (rowGet r "note_date").isSome)).length ∧
    (∀ it ∈ summarize_notes t 3, ∃ r ∈ t.rows,
      (rowGet r "note_date").isSome = true ∧ it = noteOfRow r ∧
      (let text := safeStr (rowGet r "note_text")
       it.snippet =
        if text.length ≤ 300 then text else strTake text 300 ++ "...")) := by
  set dated := t.rows.filter (fun r => (rowGet r "note_date").isSome) with hdated
  have hall : ∀ r ∈ dated, (rowGet r "note_date").isSome = true := by
    intro r hr
    exact (List.mem_filter.mp hr).2
  have hperm : List.Perm (sortDescRows "note_date" dated) dated :=
    perm_sortDescRows "note_date" dated
  have hsplit : (sortDescRows "note_date" dated).take 3 ++
      (sortDescRows "note_date" dated).drop 3 = sortDescRows "note_date" dated :=
    List.take_append_drop 3 _
  have hpw := pairwise_sortDescRows "note_date" dated hall
  rw [← hsplit] at hpw
  rcases List.pairwise_append.mp hpw with ⟨_, _, hcross⟩
  have hnotes : summarize_notes t 3 =
      ((sortDescRows "note_date" dated).take 3).map noteOfRow := by
    by_cases hemp : t.rows.isEmpty
    · have hnil : t.rows = [] := List.isEmpty_iff.mp hemp
      have hsd : sortDescRows "note_date" ([] : List Row) = [] := rfl
      simp [summarize_notes, top_n_recent, hemp, hdated, hnil, hsd]
    · simp [summarize_notes, top_n_recent, hemp, hcol, hdated]
  have hperm2 : List.Perm ((sortDescRows "note_date" dated).take 3 ++
      (sortDescRows "note_date" dated).drop 3) dated := by
    rw [hsplit]
    exact hperm
  refine ⟨hperm2, fun s hs u hu => hcross s hs u hu, hnotes, ?_, ?_⟩
  · rw [hnotes]
    rw [List.length_map, List.length_take, hperm.length_eq]
  · intro it hit
    rw [hnotes] at hit
    rcases List.mem_map.mp hit with ⟨r, hr, rfl⟩
    have hrd : r ∈ dated := hperm.subset (List.take_subset 3 _ hr)
    refine ⟨r, List.mem_of_mem_filter hrd, hall r hrd, rfl, ?_⟩
    show (noteOfRow r).snippet = _
    unfold noteOfRow
    simp only
    set text := safeStr (rowGet r "note_text") with htext
    by_cases hlen : text.length ≤ 300
    · have hnot : ¬ text.length > 300 := by omega
      have htake : strTake text 300 = text := by
        unfold strTake
        have h2 : text.data.take 300 = text.data := List.take_of_length_le hlen
        rw [h2]
      rw [if_neg hnot, if_pos hlen, htake]
      exact String.append_empty _
    · have hgt : text.length > 300 := by omega
      rw [if_pos hgt, if_neg hlen]

/-- C8 witness: the amended notes claim instantiated on a one-note table. -/
theorem claim_C8_witness :
    (summarize_notes ⟨["note_date", "note_text"],
      [[("note_date", some (.vDate 1)), ("note_text", some (.vStr "hello"))]]⟩ 3).length =
      min 3 ((⟨["note_date", "note_text"],
        [[("note_date", some (.vDate 1)), ("note_text", some (.vStr "hello"))]]⟩ : Table).rows.filter
          (fun r => (rowGet r "note_date").isSome)).length := by
  obtain ⟨h1, h2, h3, h4, h5⟩ := claim_C8_amended ⟨["note_date", "note_text"],
    [[("note_date", some (.vDate 1)), ("note_text", some (.vStr "hello"))]]⟩ (by decide)
  exact h4

/-- C2 counterexample: on a non-empty vitals table whose every visit date
is missing, `summarize_vitals` reaches `iloc[0]` of an empty frame and
raises instead of returning a summary; likewise `summarize_oasis` on a
non-empty table with every assessment date missing. -/
theorem claim_C2_counterexample :
    summarize_vitals ⟨["visit_date", "vital_type"],
      [[("visit_date", none), ("vital_type", some (.vStr "BP"))]]⟩ =
      .error "IndexError" ∧
    summarize_oasis ⟨["assessment_date"],
      [[("assessment_date", none)]]⟩ = .error "IndexError" :=
  ⟨rfl, rfl⟩

/-- C2 amended: every summarizer is a pure function of its input table;
diagnoses, medications, notes and wounds are total, and all six return
their empty default on an empty table; but the vitals and oasis
summarizers raise on a non-empty table in which every row's date field is
missing. -/
theorem claim_C2_amended :
    (∀ t : Table, t.rows = [] → summarize_vitals t = .ok ⟨none, [], []⟩) ∧
    (∀ t : Table, t.rows ≠ [] → "visit_date" ∈ t.cols →
      (∀ r ∈ t.rows, rowGet r "visit_date" = none) →
      summarize_vitals t = .error "IndexError") ∧
    (∀ t : Table, t.rows = [] → summarize_oasis t = .ok ⟨none, none, []⟩) ∧
    (∀ t : Table, t.rows ≠ [] → "assessment_date" ∈ t.cols →
      (∀ r ∈ t.rows, rowGet r "assessment_date" = none) →
      summarize_oasis t = .error "IndexError") ∧
    (∀ t : Table, t.rows = [] → summarize_diagnoses t = [] ∧
      summarize_medications t = [] ∧ summarize_notes t 3 = [] ∧
      summarize_wounds t = []) := by
  have hempf : ∀ t : Table, t.rows ≠ [] → t.rows.isEmpty = false := by
    intro t h
    cases ht : t.rows with
    | nil => exact absurd ht h
    | cons a l => rfl
  have hsd : ∀ c : String, sortDescRows c ([] : List Row) = [] := fun _ => rfl
  refine ⟨?_, ?_, ?_, ?_, ?_⟩
  · intro t h
    unfold summarize_vitals
    simp [h]
  · intro t hne hcol hnone
    have hdrop : dropnaE t ["visit_date"] = .ok [] := by
      unfold dropnaE
      rw [if_pos (by simp [hcol])]
      congr 1
      rw [List.filter_eq_nil_iff]
      intro r hr
      simp [hnone r hr]
    simp [summarize_vitals, hempf t hne, hdrop, hsd]
  · intro t h
    unfold summarize_oasis
    simp [h]
  · intro t hne hcol hnone
    have hdrop : dropnaE t ["assessment_date"] = .ok [] := by
      unfold dropnaE
      rw [if_pos (by simp [hcol])]
      congr 1
      rw [List.filter_eq_nil_iff]
      intro r hr
      simp [hnone r hr]
    simp [summarize_oasis, hempf t hne, hdrop, hsd]
  · intro t h
    refine ⟨?_, ?_, ?_, ?_⟩ <;> simp [summarize_diagnoses, summarize_medications,
      summarize_notes, summarize_wounds, h]

/-- C2 witness: the amended claim instantiated on a two-row undated vitals
table and on the empty oasis table. -/
theorem claim_C2_witness :
    summarize_vitals ⟨["visit_date", "vital_type", "reading"],
      [[("visit_date", none), ("vital_type", some (.vStr "HR")),
        ("reading", some (.vInt 80))],
       [("visit_date", none), ("vital_type", some (.vStr "BP")),
        ("reading", some (.vInt 120))]]⟩ = .error "IndexError" ∧
    summarize_oasis ⟨["assessment_date"], []⟩ = .ok ⟨none, none, []⟩ :=
  ⟨claim_C2_amended.2.1 ⟨["visit_date", "vital_type", "reading"],
      [[("visit_date", none), ("vital_type", some (.vStr "HR")),
        ("reading", some (.vInt 80))],
       [("visit_date", none), ("vital_type", some (.vStr "BP")),
        ("reading", some (.vInt 120))]]⟩ (by decide) (by decide) (by decide),
   claim_C2_amended.2.2.1 ⟨["assessment_date"], []⟩ rfl⟩

/-- C9: call_llm invokes the completion client at most twice; a first
attempt rejected for the temperature parameter is retried exactly once
without it, and that retry's outcome (success or failure) is returned
as is; any other first-attempt error propagates unchanged after a single
invocation; a first-attempt success makes exactly one invocation. -/
theorem claim_C9_llm_retry (client : Bool → Except String String) :
    ((call_llm client).2 = [true] ∨ (call_llm client).2 = [true, false]) ∧
    ((call_llm client).2.length ≤ 2) ∧
    (∀ e, client true = .error e → isTempReject e = false →
      call_llm client = (.error e, [true])) ∧
    (∀ e, client true = .error e → isTempReject e = true →
      (∀ s, client false = .ok s →
        call_llm client = (.ok (pyStrip s), [true, false])) ∧
      (∀ e2, client false = .error e2 →
        call_llm client = (.error e2, [true, false]))) ∧
    (∀ s, client true = .ok s → call_llm client = (.ok (pyStrip s), [true])) := by
  refine ⟨?_, ?_, ?_, ?_, ?_⟩
  · unfold call_llm
    cases h : client true with
    | ok s => simp
    | error e =>
      by_cases hr : isTempReject e
      · simp only [hr, if_true]
        cases client false with
        | ok s => simp
        | error e2 => simp
      · simp [hr]
  · unfold call_llm
    cases h : client true with
    | ok s => simp
    | error e =>
      by_cases hr : isTempReject e
      · simp only [hr, if_true]
        cases client false with
        | ok s => simp
        | error e2 => simp
      · simp only [hr, Bool.false_eq_true, if_false]
        simp
  · intro e he hrj
    unfold call_llm
    rw [he]
    simp [hrj]
  · intro e he hrj
    constructor
    · intro s hs
      unfold call_llm
      rw [he]
      simp [hrj, hs]
    · intro e2 he2
      unfold call_llm
      rw [he]
      simp [hrj, he2]
  · intro s hs
    unfold call_llm
    rw [hs]

/-- C9 witness: a client rejecting the temperature parameter is retried
once without it, and the stripped retry response is returned after exactly
two invocations in that order. -/
theorem claim_C9_witness :
    call_llm (fun b => if b then .error "temperature is unsupported here"
      else .ok " hi ") = (.ok "hi", [true, false]) :=
  ((claim_C9_llm_retry (fun b => if b then .error "temperature is unsupported here"
      else .ok " hi ")).2.2.2.1 "temperature is unsupported here" rfl rfl).1 " hi " rfl

/-- The citation-tag pattern never occurs in tag-safe characters. -/
theorem hasSubL_false_of_tagSafe (rest : List Char) :
    ∀ {l : List Char}, tagSafe l = true →
      hasSubL ('[' :: 'S' :: rest) l = false := by
  intro l
  induction l with
  | nil => intro _; rfl
  | cons c cs ih =>
    intro h
    unfold tagSafe at h
    rw [Bool.and_eq_true] at h
    obtain ⟨hc, hcs⟩ := h
    have hsub : hasSubL ('[' :: 'S' :: rest) cs = false := ih hcs
    unfold hasSubL
    rw [hsub, Bool.or_false]
    by_cases hceq : c = '['
    · subst hceq
      simp at hc
      cases cs with
      | nil => simp [isPreL]
      | cons d ds =>
        have hd : d ≠ 'S' := by simpa using hc
        simp [isPreL, Ne.symm hd]
    · have hfc : ('[' == c) = false := by
        cases hcc : ('[' == c) with
        | false => rfl
        | true => exact absurd (beq_iff_eq.mp hcc).symm hceq
      simp [isPreL, hfc]

/-- hasTag is false on tag-safe strings. -/
theorem hasTag_false_of_tagSafeS {s : String} (h : tagSafeS s = true) :
    hasTag s = false := by
  unfold hasTag containsSub
  have hpat : ("[Source:" : String).data = '[' :: 'S' :: "ource:".data := rfl
  rw [hpat]
  exact hasSubL_false_of_tagSafe _ h

/-- tagSafe concatenation with a guarded boundary. -/
theorem tagSafe_append : ∀ {a b : List Char}, tagSafe a = true →
    tagSafe b = true → (a.getLast? = some '[' → b.head? ≠ some 'S') →
    tagSafe (a ++ b) = true := by
  intro a
  induction a with
  | nil => intro b _ hb _; simpa using hb
  | cons x xs ih =>
    intro b ha hb hbound
    cases xs with
    | nil =>
      simp only [List.cons_append, List.nil_append]
      unfold tagSafe
      rw [Bool.and_eq_true]
      refine ⟨?_, hb⟩
      by_cases hx : x = '['
      · subst hx
        have hhead := hbound rfl
        cases b with
        | nil => simp
        | cons d ds =>
          have hd : d ≠ 'S' := by
            intro hdd
            exact hhead (by rw [hdd]; rfl)
          simp [hd]
      · simp [hx]
    | cons y ys =>
      unfold tagSafe at ha
      rw [Bool.and_eq_true] at ha
      obtain ⟨hg, hrest⟩ := ha
      have hlast : (y :: ys).getLast? = (x :: y :: ys).getLast? :=
        (List.getLast?_cons_cons ..).symm
      have ih2 := ih hrest hb (by rw [hlast]; exact hbound)
      simp only [List.cons_append]
      unfold tagSafe
      rw [Bool.and_eq_true]
      exact ⟨by simpa using hg, by simpa using ih2⟩

/-- A suffix of tag-safe characters is tag-safe. -/
theorem tagSafe_append_right : ∀ {a b : List Char},
    tagSafe (a ++ b) = true → tagSafe b = true := by
  intro a
  induction a with
  | nil => intro b h; simpa using h
  | cons x xs ih =>
    intro b h
    rw [List.cons_append] at h
    unfold tagSafe at h
    rw [Bool.and_eq_true] at h
    exact ih h.2

/-- A prefix of tag-safe characters is tag-safe. -/
theorem tagSafe_append_left : ∀ {a b : List Char},
    tagSafe (a ++ b) = true → tagSafe a = true := by
  intro a
  induction a with
  | nil => intro b _; rfl
  | cons x xs ih =>
    intro b h
    rw [List.cons_append] at h
    unfold tagSafe at h
    rw [Bool.and_eq_true] at h
    obtain ⟨hg, hrest⟩ := h
    unfold tagSafe
    rw [Bool.and_eq_true]
    refine ⟨?_, ih hrest⟩
    cases xs with
    | nil => simp
    | cons y ys => simpa using hg

/-- Bracket-free characters are tag-safe. -/
theorem tagSafe_of_noBracket : ∀ {l : List Char},
    noBracketL l = true → tagSafe l = true := by
  intro l
  induction l with
  | nil => intro _; rfl
  | cons c cs ih =>
    intro h
    unfold noBracketL at h
    rw [List.all_cons, Bool.and_eq_true] at h
    unfold tagSafe
    rw [Bool.and_eq_true]
    exact ⟨by simp [h.1], ih h.2⟩

/-- getLast of an append with a nonempty right part. -/
theorem getLast?_append_right : ∀ {a b : List Char}, b ≠ [] →
    (a ++ b).getLast? = b.getLast? := by
  intro a
  induction a with
  | nil => intro b _; rfl
  | cons x xs ih =>
    intro b hb
    rw [List.cons_append]
    have hne : xs ++ b ≠ [] := by
      intro h
      exact hb (List.append_eq_nil.mp h).2
    have h1 : (x :: (xs ++ b)).getLast? = (xs ++ b).getLast? := by
      cases hx : xs ++ b with
      | nil => exact absurd hx hne
      | cons y ys => exact List.getLast?_cons_cons ..
    rw [h1]
    exact ih hb

/-- rstripL is a prefix of its input. -/
theorem rstripL_prefix : ∀ l : List Char, ∃ l₂, l = rstripL l ++ l₂ := by
  intro l
  induction l with
  | nil => exact ⟨[], rfl⟩
  | cons c cs ih =>
    rcases ih with ⟨l₂, hl₂⟩
    have h0 : rstripL (c :: cs) =
        if ((rstripL cs).isEmpty && isWS c) = true then [] else c :: rstripL cs :=
      rfl
    by_cases hcond : ((rstripL cs).isEmpty && isWS c) = true
    · refine ⟨c :: cs, ?_⟩
      rw [h0, if_pos hcond]
      rfl
    · refine ⟨l₂, ?_⟩
      rw [h0, if_neg hcond, List.cons_append, ← hl₂]

/-- pyStrip preserves tag-safety. -/
theorem tagSafeS_pyStrip {s : String} (h : tagSafeS s = true) :
    tagSafeS (pyStrip s) = true := by
  unfold tagSafeS pyStrip at *
  have h1 : tagSafe (s.data.dropWhile isWS) = true := by
    have hsplit := List.takeWhile_append_dropWhile (p := isWS) (l := s.data)
    rw [← hsplit] at h
    exact tagSafe_append_right h
  rcases rstripL_prefix (s.data.dropWhile isWS) with ⟨l₂, hl₂⟩
  rw [hl₂] at h1
  exact tagSafe_append_left h1

/-- Bracket-free strings are tagOk. -/
theorem tagOk_of_noBracketS {s : String} (h : noBracketS s = true) :
    tagOk s = true := by
  unfold tagOk tagSafeS
  unfold noBracketS at h
  rw [Bool.and_eq_true]
  refine ⟨tagSafe_of_noBracket h, ?_⟩
  cases hg : s.data.getLast? with
  | none => rfl
  | some c =>
    have hcmem : c ∈ s.data := mem_of_getLast?_eq hg
    unfold noBracketL at h
    rw [List.all_eq_true] at h
    have := h c hcmem
    simp at this ⊢
    exact this

/-- tagOk concatenation. -/
theorem tagOk_append {a b : String} (ha : tagOk a = true) (hb : tagOk b = true) :
    tagOk (a ++ b) = true := by
  unfold tagOk tagSafeS at *
  rw [Bool.and_eq_true] at ha hb
  rw [Bool.and_eq_true, String.data_append]
  constructor
  · refine tagSafe_append ha.1 hb.1 ?_
    intro hlast
    exfalso
    have := ha.2
    rw [hlast] at this
    simp at this
  · cases hbd : b.data with
    | nil =>
      rw [List.append_nil]
      have := ha.2
      simpa using this
    | cons y ys =>
      rw [getLast?_append_right (by simp)]
      have := hb.2
      rw [hbd] at this
      simpa using this

/-- Bracket-free concatenation. -/
theorem noBracketS_append {a b : String} (ha : noBracketS a = true)
    (hb : noBracketS b = true) : noBracketS (a ++ b) = true := by
  unfold noBracketS noBracketL at *
  rw [String.data_append, List.all_append, ha, hb]
  rfl

/-- joinLines of tagOk lines is tagOk: the newline separator both blocks a
tag across the boundary and never ends in a bracket. -/
theorem tagOk_joinLines : ∀ ls : List String,
    (∀ s ∈ ls, tagOk s = true) → tagOk (joinLines ls) = true := by
  intro ls
  induction ls with
  | nil => intro _; rfl
  | cons s rest ih =>
    intro h
    cases rest with
    | nil => exact h s (List.mem_cons_self _ _)
    | cons s2 rest2 =>
      show tagOk (s ++ "\n" ++ joinLines (s2 :: rest2)) = true
      refine tagOk_append (tagOk_append ?_ (by decide)) ?_
      · exact h s (List.mem_cons_self _ _)
      · exact ih (fun x hx => h x (List.mem_cons_of_mem _ hx))

/-- The characters of a decimal rendering are decimal digits. -/
theorem natDigits_mem : ∀ n : Nat, ∀ c ∈ natDigits n,
    c ∈ ['0', '1', '2', '3', '4', '5', '6', '7', '8', '9'] := by
  intro n
  induction n using Nat.strong_induction_on with
  | _ n ih =>
    intro c hc
    unfold natDigits at hc
    split at hc
    · rename_i h
      simp at hc
      subst hc
      interval_cases n <;> decide
    · rename_i h
      rcases List.mem_append.mp hc with hc | hc
      · exact ih (n / 10) (Nat.div_lt_self (by omega) (by omega)) c hc
      · simp at hc
        subst hc
        have hm : n % 10 < 10 := Nat.mod_lt _ (by omega)
        interval_cases hmm : (n % 10) <;> decide

/-- Decimal integer renderings are bracket-free. -/
theorem noBracketS_intRender (k : Int) : noBracketS (intRender k) = true := by
  unfold intRender noBracketS noBracketL
  rw [String.data_append, List.all_append, Bool.and_eq_true]
  constructor
  · split <;> decide
  · rw [List.all_eq_true]
    intro c hc
    have := natDigits_mem k.natAbs c hc
    fin_cases this <;> decide

/-- Optional-integer renderings are bracket-free. -/
theorem noBracketS_showOptInt (o : Option Int) :
    noBracketS (showOptInt o) = true := by
  cases o with
  | none => decide
  | some k => exact noBracketS_intRender k

/-- tagOk implies tag-safety. -/
theorem tagSafeS_of_tagOk {s : String} (h : tagOk s = true) :
    tagSafeS s = true := by
  unfold tagOk at h
  rw [Bool.and_eq_true] at h
  exact h.1

/-- A rendered section is tagOk when its default and each rendered line
are. -/
theorem tagOk_section {α : Type} (l : List α) (dflt : String) (f : α → String)
    (hdflt : tagOk dflt = true) (h : ∀ x ∈ l, tagOk (f x) = true) :
    tagOk (if l.isEmpty then dflt else joinLines (l.map f)) = true := by
  split
  · exact hdflt
  · refine tagOk_joinLines _ ?_
    intro s hs
    rcases List.mem_map.mp hs with ⟨x, hx, rfl⟩
    exact h x hx

/-- The rendered notes line is tagOk: its single bracket is followed by
the date rendering, which does not start with a capital S, and the data
pieces are bracket-free. -/
theorem tagOk_noteLine {a b c : String} (ha : noBracketS a = true)
    (hh : headNotS a = true) (hb : noBracketS b = true)
    (hc : noBracketS c = true) :
    tagOk ("- [" ++ a ++ "] " ++ b ++ ": " ++ c) = true := by
  have hrest : noBracketS a = true → noBracketL
      (a.data ++ (']' :: ' ' :: (b.data ++ (':' :: ' ' :: c.data)))) = true := by
    intro ha2
    unfold noBracketS noBracketL at *
    rw [List.all_append, Bool.and_eq_true]
    refine ⟨ha2, ?_⟩
    rw [List.all_cons, List.all_cons, List.all_append, List.all_cons, List.all_cons]
    simp only [Bool.and_eq_true]
    exact ⟨by decide, by decide, hb, by decide, by decide, hc⟩
  have hdata : ("- [" ++ a ++ "] " ++ b ++ ": " ++ c).data =
      ('-' :: ' ' :: '[' :: []) ++
        (a.data ++ (']' :: ' ' :: (b.data ++ (':' :: ' ' :: c.data)))) := by
    simp [String.data_append]
  unfold tagOk tagSafeS
  rw [Bool.and_eq_true, hdata]
  constructor
  · refine tagSafe_append (by decide) (tagSafe_of_noBracket (hrest ha)) ?_
    intro _
    cases had : a.data with
    | nil => simp [had]
    | cons c0 cs0 =>
      unfold headNotS at hh
      rw [had] at hh
      simp [had]
      simpa using hh
  · have hbig : (('-' :: ' ' :: '[' :: []) ++
        (a.data ++ (']' :: ' ' :: (b.data ++ (':' :: ' ' :: c.data))))).getLast? =
        (' ' :: c.data).getLast? := by
      rw [getLast?_append_right (by simp), getLast?_append_right (by simp),
        List.getLast?_cons_cons, ← List.singleton_append,
        getLast?_append_right (by simp), getLast?_append_right (by simp),
        List.getLast?_cons_cons]
    rw [hbig]
    cases hcd : c.data with
    | nil => decide
    | cons y ys =>
      rw [List.getLast?_cons_cons]
      cases hg : (y :: ys).getLast? with
      | none => simp
      | some z =>
        have hz : z ∈ y :: ys := mem_of_getLast?_eq hg
        have hzz : z ≠ '[' := by
          unfold noBracketS noBracketL at hc
          rw [List.all_eq_true] at hc
          have := hc z (by rw [hcd]; exact hz)
          simpa using this
        simp [hzz]

/-- The fallback template emits no citation tag on benign summaries. -/
theorem template_generate_no_tags {si : SummaryInputs} (hb : benign si = true) :
    hasTag (template_generate si) = false := by
  unfold benign at hb
  simp only [Bool.and_eq_true] at hb
  obtain ⟨⟨⟨⟨⟨⟨⟨⟨⟨h1, h2⟩, h3⟩, h4⟩, h5⟩, h6⟩, h7⟩, h8⟩, h9⟩, h10⟩ := hb
  have heq : template_generate si = pyStrip (joinLines
    ["",
     "1. Patient Overview",
     "Patient ID: " ++ intRender si.patient_id,
     "Episode ID: " ++ showOptInt si.episode_id,
     "",
     "2. Active Diagnoses",
     (if si.diagnoses_summary.isEmpty then "Not documented"
      else joinLines (si.diagnoses_summary.map (fun d => "- " ++ d))),
     "",
     "3. Current Medications",
     (if si.medications_summary.isEmpty then "Not documented"
      else joinLines (si.medications_summary.map (fun m =>
        "- " ++ m.name ++ " (" ++ m.frequency ++ ") — Reason: " ++ m.reason))),
     "",
     "4. Recent Vitals",
     "Latest date: " ++ fmtDateT si.vitals_summary.latest_date,
     (if si.vitals_summary.latest_vitals.isEmpty then "Not documented"
      else joinLines (si.vitals_summary.latest_vitals.map (fun p =>
        "- " ++ showValue p.1 ++ ": " ++ showOptInt p.2.reading))),
     "",
     "Abnormal:",
     (if si.vitals_summary.abnormal.isEmpty then "None flagged"
      else joinLines (si.vitals_summary.abnormal.map (fun x => "- " ++ x))),
     "",
     "5. Wound Summary",
     (if si.wounds_summary.isEmpty then "Not documented"
      else joinLines (si.wounds_summary.map (fun w =>
        "- " ++ w.description ++ " | " ++ w.location ++ " | onset " ++
        fmtDateT w.onset_date ++ " | last " ++ fmtDateT w.visit_date))),
     "",
     "6. Functional / ADL Status (OASIS)",
     "Assessment date: " ++ fmtDateT si.oasis_summary.latest_date,
     "Assessment type: " ++ pyOr si.oasis_summary.assessment_type "Not documented",
     (if si.oasis_summary.adl.isEmpty then "Not documented"
      else joinLines (si.oasis_summary.adl.map (fun kv =>
        "- " ++ kv.1 ++ ": " ++ kv.2))),
     "",
     "7. Recent Notes",
     (if si.note_highlights.isEmpty then "Not documented"
      else joinLines (si.note_highlights.map (fun n =>
        "- [" ++ fmtDateT n.date ++ "] " ++ n.type ++ ": " ++ n.snippet))),
     ""]) := rfl
  rw [heq]
  refine hasTag_false_of_tagSafeS
    (tagSafeS_pyStrip (tagSafeS_of_tagOk (tagOk_joinLines _ ?_)))
  intro s hs
  simp only [List.mem_cons, List.not_mem_nil, or_false] at hs
  rcases hs with rfl | rfl | rfl | rfl | rfl | rfl | rfl | rfl | rfl | rfl | rfl |
    rfl | rfl | rfl | rfl | rfl | rfl | rfl | rfl | rfl | rfl | rfl | rfl | rfl |
    rfl | rfl | rfl | rfl | rfl
  · decide
  · decide
  · exact tagOk_of_noBracketS (noBracketS_append (by decide) (noBracketS_intRender _))
  · exact tagOk_of_noBracketS (noBracketS_append (by decide) (noBracketS_showOptInt _))
  · decide
  · decide
  · refine tagOk_section _ _ _ (by decide) ?_
    intro d hd
    exact tagOk_of_noBracketS (noBracketS_append (by decide)
      (List.all_eq_true.mp h1 d hd))
  · decide
  · decide
  · refine tagOk_section _ _ _ (by decide) ?_
    intro m hm
    have hfacts := List.all_eq_true.mp h2 m hm
    rw [Bool.and_eq_true, Bool.and_eq_true] at hfacts
    obtain ⟨⟨hn, hf⟩, hr⟩ := hfacts
    exact tagOk_of_noBracketS (noBracketS_append (noBracketS_append
      (noBracketS_append (noBracketS_append (noBracketS_append (by decide) hn)
        (by decide)) hf) (by decide)) hr)
  · decide
  · decide
  · exact tagOk_of_noBracketS (noBracketS_append (by decide) h3)
  · refine tagOk_section _ _ _ (by decide) ?_
    intro p hp
    have hk := List.all_eq_true.mp h4 p hp
    exact tagOk_of_noBracketS (noBracketS_append (noBracketS_append
      (noBracketS_append (by decide) hk) (by decide)) (noBracketS_showOptInt _))
  · decide
  · decide
  · refine tagOk_section _ _ _ (by decide) ?_
    intro x hx
    exact tagOk_of_noBracketS (noBracketS_append (by decide)
      (List.all_eq_true.mp h5 x hx))
  · decide
  · decide
  · refine tagOk_section _ _ _ (by decide) ?_
    intro w hw
    have hfacts := List.all_eq_true.mp h6 w hw
    rw [Bool.and_eq_true, Bool.and_eq_true, Bool.and_eq_true] at hfacts
    obtain ⟨⟨⟨hloc, hdesc⟩, honset⟩, hvisit⟩ := hfacts
    exact tagOk_of_noBracketS (noBracketS_append (noBracketS_append
      (noBracketS_append (noBracketS_append (noBracketS_append
        (noBracketS_append (noBracketS_append (by decide) hdesc) (by decide))
          hloc) (by decide)) honset) (by decide)) hvisit)
  · decide
  · decide
  · exact tagOk_of_noBracketS (noBracketS_append (by decide) h7)
  · exact tagOk_of_noBracketS (noBracketS_append (by decide) h8)
  · refine tagOk_section _ _ _ (by decide) ?_
    intro kv hkv
    have hfacts := List.all_eq_true.mp h9 kv hkv
    rw [Bool.and_eq_true] at hfacts
    obtain ⟨hk, hv⟩ := hfacts
    exact tagOk_of_noBracketS (noBracketS_append (noBracketS_append
      (noBracketS_append (by decide) hk) (by decide)) hv)
  · decide
  · decide
  · refine tagOk_section _ _ _ (by decide) ?_
    intro n hn
    have hfacts := List.all_eq_true.mp h10 n hn
    rw [Bool.and_eq_true, Bool.and_eq_true, Bool.and_eq_true] at hfacts
    obtain ⟨⟨⟨hty, hsn⟩, hdt⟩, hhd⟩ := hfacts
    exact tagOk_noteLine hdt hhd hty hsn
  · decide

/-- C6: for a patient id appearing in no table, generate_summary returns
the fixed no-data message echoing that id, with not-found debug metadata
whose found field is False, and the generation service is invoked zero
times regardless of the use_llm flag, the model, or the service itself. -/
theorem claim_C6_not_found (ts : Tables) (pid : Int) (use_llm : Bool)
    (model : String) (llm : String → String → Except String String)
    (h : patient_exists ts pid = false) :
    generate_summary ts pid use_llm model llm =
      .ok ("No data found for patient_id=" ++ intRender pid ++ ".",
           .notFound pid, 0) ∧
    Debug.found (.notFound pid) = false := by
  refine ⟨?_, rfl⟩
  unfold generate_summary
  rw [h]
  rfl

/-- C6 witness: the empty tables map at patient id 7, with an LLM that
would succeed if ever called. -/
theorem claim_C6_witness :
    patient_exists [] 7 = false ∧
    (generate_summary [] 7 true "gpt-4o" (fun _ _ => .ok "text") =
       .ok ("No data found for patient_id=" ++ intRender 7 ++ ".",
            .notFound 7, 0) ∧
     Debug.found (.notFound 7) = false) :=
  ⟨by decide,
   claim_C6_not_found [] 7 true "gpt-4o" (fun _ _ => .ok "text") (by decide)⟩

/-- C5: whenever the generation service fails on the built prompt,
generate_summary returns ok (never an error) with the deterministic
template rendering of the same summary inputs, debug metadata in the
fallback shape carrying the error text and the 500-character prompt
preview, llm_status failed_fallback_used, and exactly one service
invocation; and on inputs whose rendered fields are free of the opening
bracket (with note dates not rendering with a leading S after a bracket)
the template text contains no citation tag. -/
theorem claim_C5_fallback (ts : Tables) (pid : Int) (model : String)
    (llm : String → String → Except String String)
    (bundle : PatientBundle) (epb : Tables) (si : SummaryInputs) (e : String)
    (hex : patient_exists ts pid = true)
    (hb : get_patient_bundle ts pid = .ok bundle)
    (hep : get_episode_bundle ts pid bundle.latest_episode_id = .ok epb)
    (hsi : prepare_summary_inputs epb pid bundle.latest_episode_id = .ok si)
    (hllm : llm (build_prompt si) model = .error e) :
    generate_summary ts pid true model llm =
      .ok (template_generate si,
           .fallback pid bundle.latest_episode_id true model e
             (strTake (build_prompt si) 500), 1) ∧
    Debug.llmStatus
      (.fallback pid bundle.latest_episode_id true model e
        (strTake (build_prompt si) 500)) = some "failed_fallback_used" ∧
    (benign si = true → hasTag (template_generate si) = false) := by
  refine ⟨?_, rfl, fun hbn => template_generate_no_tags hbn⟩
  unfold generate_summary
  rw [hex]
  simp only [Bool.not_true, Bool.false_eq_true, if_false, hb, hep, hsi, hllm]
  simp

/-- C5 witness: a one-table map holding patient 1, with a generation
service that fails on every call; the fallback equation, the llm_status,
and the absence of citation tags are all discharged concretely. -/
theorem claim_C5_witness :
    patient_exists
      [("diagnoses", ⟨["patient_id"], [[("patient_id", some (.vInt 1))]]⟩)]
      1 = true ∧
    (generate_summary
       [("diagnoses", ⟨["patient_id"], [[("patient_id", some (.vInt 1))]]⟩)]
       1 true "gpt-4o" (fun _ _ => .error "boom") =
       .ok (template_generate
              ⟨1, none, [], [], ⟨none, [], []⟩, [], [], ⟨none, none, []⟩⟩,
            .fallback 1 none true "gpt-4o" "boom"
              (strTake (build_prompt
                ⟨1, none, [], [], ⟨none, [], []⟩, [], [], ⟨none, none, []⟩⟩)
                500), 1) ∧
     Debug.llmStatus
       (.fallback 1 none true "gpt-4o" "boom"
         (strTake (build_prompt
           ⟨1, none, [], [], ⟨none, [], []⟩, [], [], ⟨none, none, []⟩⟩)
           500)) = some "failed_fallback_used" ∧
     (benign ⟨1, none, [], [], ⟨none, [], []⟩, [], [], ⟨none, none, []⟩⟩
        = true →
      hasTag (template_generate
        ⟨1, none, [], [], ⟨none, [], []⟩, [], [], ⟨none, none, []⟩⟩)
        = false)) :=
  ⟨by decide,
   claim_C5_fallback
     [("diagnoses", ⟨["patient_id"], [[("patient_id", some (.vInt 1))]]⟩)]
     1 "gpt-4o" (fun _ _ => .error "boom")
     ⟨1, [], none,
      [("diagnoses", ⟨["patient_id"], [[("patient_id", some (.vInt 1))]]⟩)]⟩
     [("diagnoses", ⟨["patient_id"], [[("patient_id", some (.vInt 1))]]⟩)]
     ⟨1, none, [], [], ⟨none, [], []⟩, [], [], ⟨none, none, []⟩⟩
     "boom" (by decide) rfl rfl rfl rfl⟩

end CSG
